import Mathlib

/-!
Verification of the axis-grid construction and spatial locator engine.

A shallow embedding, in Lean 4, of the algorithmic core of the GetDwgInfo
repository: the axis clusterer and labeler (`process_grid.py`), the queryable
axis grid (`grid_locator.py`, class `AxisGrid`), and the closed-space detector
(`grid_locator.py`, method `_locate_line_spaces`).

Modelling conventions:
* Drawing coordinates, which the Python code holds as IEEE floats, are
  modelled as exact rationals (`ℚ`); every comparison and arithmetic
  operation in the source is translated literally over `ℚ`.
* Euclidean distances, which the source obtains via `math.sqrt` only to
  compare them with each other and with a radius, are represented by their
  squares (`distSq`); since squaring is strictly monotone on nonnegative
  reals, every comparison in the source is preserved exactly.  The
  `search_radius` configuration value is correspondingly passed as its
  square (`radiusSq`), assuming the radius itself is nonnegative (the
  shipped configuration uses 5000.0).
* Python exceptions (`ValueError`, `ZeroDivisionError`) are modelled with
  `Except String`.
* Python's `round` (round half to even on floats) is modelled by
  `pythonRound` over `ℚ`.
* Python's `str.strip` is modelled by `pyStrip`, removing whitespace
  characters from both ends.
* Insertion-ordered dictionaries (`dict` / `defaultdict`) are modelled as
  association lists that preserve insertion order.
-/

/-- A 2-D drawing point. -/
abbrev Pt := ℚ × ℚ

/-- Squared Euclidean distance between two points.  The source computes
`math.sqrt((ax-bx)**2 + (ay-by)**2)`; we keep the radicand, which preserves
all order comparisons between distances. -/
def distSq (a b : Pt) : ℚ :=
  (a.1 - b.1) ^ 2 + (a.2 - b.2) ^ 2

/-- Python's built-in `round`: round half to even.
`round(q)` returns the nearest integer, ties going to the even integer. -/
def pythonRound (q : ℚ) : ℤ :=
  let f : ℤ := ⌊q⌋
  let r : ℚ := q - (f : ℚ)
  if r < 1 / 2 then f
  else if 1 / 2 < r then f + 1
  else if f % 2 = 0 then f else f + 1

/-- Python's `str.strip()`: remove whitespace from both ends of a string. -/
def pyStrip (s : String) : String :=
  ⟨((s.data.dropWhile Char.isWhitespace).reverse.dropWhile Char.isWhitespace).reverse⟩

/-! ## Data model (`process_grid.py`)

`RawLine` and `RawText` are the geometry records handed to the core by the
DXF extractor.  The extractor emits the coordinates as numeric strings and
each consumer converts them back with `float(...)`; we model the records
with the already-converted rational coordinates (records whose coordinates
fail to convert are skipped by every consumer and are not representable
here). -/

/-- A raw line record `{start_x, start_y, end_x, end_y, layer}`. -/
structure RawLine where
  start_x : ℚ
  start_y : ℚ
  end_x : ℚ
  end_y : ℚ
  layer : String
deriving DecidableEq

/-- A raw text record `{content, x, y}`. -/
structure RawText where
  content : String
  x : ℚ
  y : ℚ
deriving DecidableEq

/-- The `GridAxis` dataclass of `process_grid.py`. -/
structure GridAxis where
  label : String
  start_point : Pt
  end_point : Pt
  is_vertical : Bool
  coordinate : ℚ
deriving DecidableEq

/-! ## AxisClusterer (`GridNetwork._analyze_structure`, steps 2–3) -/

/-- Orientation of a candidate line, as decided by
`GridNetwork._analyze_structure`: `if abs(x1 - x2) < 1.0` the line is
treated as vertical, `elif abs(y1 - y2) < 1.0` as horizontal, otherwise it
is skipped (diagonal). -/
inductive LineOrientation where
  | vertical
  | horizontal
  | diagonal
deriving DecidableEq

/-- The orientation dispatch of `_analyze_structure` (an
`if`/`elif`/implicit-skip chain in the source). -/
def classifyLine (x1 y1 x2 y2 : ℚ) : LineOrientation :=
  if |x1 - x2| < 1 then .vertical
  else if |y1 - y2| < 1 then .horizontal
  else .diagonal

/-- A clustered segment record `{start_x, start_y, end_x, end_y}` as stored
in `vertical_groups` / `horizontal_groups`. -/
structure Seg where
  start_x : ℚ
  start_y : ℚ
  end_x : ℚ
  end_y : ℚ
deriving DecidableEq

/-- The `defaultdict(list)` append: `groups[key].append(s)`, preserving
insertion order of both keys and segments. -/
def addToGroups (groups : List (ℚ × List Seg)) (key : ℚ) (s : Seg) :
    List (ℚ × List Seg) :=
  match groups with
  | [] => [(key, [s])]
  | (k, ss) :: rest =>
    if k = key then (k, ss ++ [s]) :: rest
    else (k, ss) :: addToGroups rest key s

/-- The clustering loop of `_analyze_structure` (step 2): bin each candidate
line by direction and rounded mean coordinate.  Dividing by a zero
`tolerance` raises `ZeroDivisionError` in Python the first time an
axis-aligned candidate is processed; we surface that as an error. -/
def buildGroupsGo (tolerance : ℚ) (vg hg : List (ℚ × List Seg)) :
    List RawLine → Except String (List (ℚ × List Seg) × List (ℚ × List Seg))
  | [] => .ok (vg, hg)
  | l :: rest =>
    match classifyLine l.start_x l.start_y l.end_x l.end_y with
    | .vertical =>
      if tolerance = 0 then .error "ZeroDivisionError: float division by zero"
      else
        let key := (pythonRound ((l.start_x + l.end_x) / 2 / tolerance) : ℚ) * tolerance
        buildGroupsGo tolerance
          (addToGroups vg key ⟨l.start_x, l.start_y, l.end_x, l.end_y⟩) hg rest
    | .horizontal =>
      if tolerance = 0 then .error "ZeroDivisionError: float division by zero"
      else
        let key := (pythonRound ((l.start_y + l.end_y) / 2 / tolerance) : ℚ) * tolerance
        buildGroupsGo tolerance vg
          (addToGroups hg key ⟨l.start_x, l.start_y, l.end_x, l.end_y⟩) rest
    | .diagonal => buildGroupsGo tolerance vg hg rest

/-- Minimum of a list of rationals relative to a seed (Python's `min` over
a nonempty list is the fold of binary `min` from its first element). -/
def listMinFrom (d : ℚ) (l : List ℚ) : ℚ := l.foldl min d

/-- Maximum of a list of rationals relative to a seed. -/
def listMaxFrom (d : ℚ) (l : List ℚ) : ℚ := l.foldl max d

/-- Build one logical vertical axis from a bucket (step 3, vertical case):
span = min/max of all member `y`s, coordinate = average of all member `x`s,
buckets whose span is below `min_axis_length` are dropped.  A bucket is
never empty (buckets are created with their first member); the `[]` case is
unreachable and mirrors the `if not ys: continue` guard of the source. -/
def verticalAxisOfGroup (minAxisLength : ℚ) (segs : List Seg) : Option GridAxis :=
  match segs with
  | [] => none
  | s0 :: _ =>
    let ys := segs.flatMap fun sg => [sg.start_y, sg.end_y]
    let minY := listMinFrom s0.start_y ys
    let maxY := listMaxFrom s0.start_y ys
    let avgX := (segs.map fun sg => sg.start_x + sg.end_x).sum / (2 * segs.length)
    if |maxY - minY| < minAxisLength then none
    else some ⟨"?", (avgX, minY), (avgX, maxY), true, avgX⟩

/-- Build one logical horizontal axis from a bucket (step 3, horizontal
case). -/
def horizontalAxisOfGroup (minAxisLength : ℚ) (segs : List Seg) : Option GridAxis :=
  match segs with
  | [] => none
  | s0 :: _ =>
    let xs := segs.flatMap fun sg => [sg.start_x, sg.end_x]
    let minX := listMinFrom s0.start_x xs
    let maxX := listMaxFrom s0.start_x xs
    let avgY := (segs.map fun sg => sg.start_y + sg.end_y).sum / (2 * segs.length)
    if |maxX - minX| < minAxisLength then none
    else some ⟨"?", (minX, avgY), (maxX, avgY), false, avgY⟩

/-! ## AxisLabeler (`GridNetwork._analyze_structure`, step 4) -/

/-- The value `min(d1, d2)` of the squared distances from a text to the two endpoints
of an axis. -/
def minEndpointDistSq (axis : GridAxis) (t : RawText) : ℚ :=
  min (distSq (t.x, t.y) axis.start_point) (distSq (t.x, t.y) axis.end_point)

/-- One step of the label search loop: skip texts whose stripped content is
longer than 8 characters; otherwise update `(best_label, min_dist)` when
`dist < search_radius and dist < min_dist` (an absent `min_dist` is the
initial `float("inf")`). -/
def labelStep (radiusSq : ℚ) (axis : GridAxis) (st : Option String × Option ℚ)
    (t : RawText) : Option String × Option ℚ :=
  if 8 < (pyStrip t.content).length then st
  else
    match st.2 with
    | none =>
      if minEndpointDistSq axis t < radiusSq then
        (some (pyStrip t.content), some (minEndpointDistSq axis t))
      else st
    | some m =>
      if minEndpointDistSq axis t < radiusSq ∧ minEndpointDistSq axis t < m then
        (some (pyStrip t.content), some (minEndpointDistSq axis t))
      else st

/-- Label one axis: run the candidate search over all texts, then
`if best_label: axis.label = best_label` — note the Python truthiness test,
under which an empty string is never assigned. -/
def labelAxis (texts : List RawText) (radiusSq : ℚ) (axis : GridAxis) : GridAxis :=
  match (texts.foldl (labelStep radiusSq axis) (none, none)).1 with
  | some lbl => if lbl = "" then axis else { axis with label := lbl }
  | none => axis

/-- Model of `GridNetwork._analyze_structure`: cluster the candidate lines into
logical axes (vertical groups first, then horizontal, in insertion order),
then match a label to each axis.  The optional layer-keyword pre-filter of
step 1 merely selects the candidate subset of the raw lines and is modelled
by passing the candidate list directly. -/
def analyzeStructure (tolerance minAxisLength radiusSq : ℚ)
    (lines : List RawLine) (texts : List RawText) :
    Except String (List GridAxis) :=
  match buildGroupsGo tolerance [] [] lines with
  | .error e => .error e
  | .ok (vg, hg) =>
    let tempAxes :=
      vg.filterMap (fun g => verticalAxisOfGroup minAxisLength g.2) ++
        hg.filterMap (fun g => horizontalAxisOfGroup minAxisLength g.2)
    .ok (tempAxes.map (labelAxis texts radiusSq))

/-! ## Grid snapshot and `AxisGrid` (`GridNetwork.to_dict`, `grid_locator.py`)

`GridNetwork.to_dict` serializes each axis as the JSON object
`{label, start_point: [x, y], end_point: [x, y], is_vertical, coordinate}`.
`AxisGrid` stores these serialized objects directly (its queries read the
`coordinate` and `label` keys), so the serialized record is the axis type of
`AxisGrid`. -/

/-- One axis of the grid snapshot, exactly the dictionary produced by
`GridNetwork.to_dict` (the endpoint tuples become two-element lists). -/
structure SerializedAxis where
  label : String
  start_point : List ℚ
  end_point : List ℚ
  is_vertical : Bool
  coordinate : ℚ
deriving DecidableEq

/-- Serialization of one `GridAxis`, as written by `GridNetwork.to_dict`. -/
def serializeAxis (a : GridAxis) : SerializedAxis :=
  ⟨a.label, [a.start_point.1, a.start_point.2], [a.end_point.1, a.end_point.2],
    a.is_vertical, a.coordinate⟩

/-- Coordinate (non-strict) comparison on `GridAxis`: the sort key
`lambda x: x.coordinate` of the `GridNetwork.x_axes`/`y_axes` properties. -/
def gaCoordLE (a b : GridAxis) : Prop := a.coordinate ≤ b.coordinate

instance : DecidableRel gaCoordLE :=
  fun a b => inferInstanceAs (Decidable (a.coordinate ≤ b.coordinate))

instance : IsTotal GridAxis gaCoordLE := ⟨fun a b => le_total a.coordinate b.coordinate⟩

instance : IsTrans GridAxis gaCoordLE := ⟨fun _ _ _ => le_trans⟩

/-- Coordinate comparison on serialized axes: the sort key
`lambda a: a["coordinate"]` of `AxisGrid.__init__`. -/
def saCoordLE (a b : SerializedAxis) : Prop := a.coordinate ≤ b.coordinate

instance : DecidableRel saCoordLE :=
  fun a b => inferInstanceAs (Decidable (a.coordinate ≤ b.coordinate))

instance : IsTotal SerializedAxis saCoordLE := ⟨fun a b => le_total a.coordinate b.coordinate⟩

instance : IsTrans SerializedAxis saCoordLE := ⟨fun _ _ _ => le_trans⟩

/-- Model of `GridNetwork.x_axes`: the vertical axes, sorted ascending by coordinate
(`sorted` in Python is a stable sort, modelled by insertion sort). -/
def gridXAxes (axes : List GridAxis) : List GridAxis :=
  List.insertionSort gaCoordLE (axes.filter (·.is_vertical))

/-- Model of `GridNetwork.y_axes`: the horizontal axes, sorted ascending by coordinate. -/
def gridYAxes (axes : List GridAxis) : List GridAxis :=
  List.insertionSort gaCoordLE (axes.filter (fun a => !a.is_vertical))

/-- The grid snapshot `{"x_axes": [...], "y_axes": [...]}`. -/
structure GridSnapshot where
  x_axes : List SerializedAxis
  y_axes : List SerializedAxis
deriving DecidableEq

/-- Model of `GridNetwork.to_dict`: serialize the sorted vertical and horizontal
axis lists. -/
def toDict (axes : List GridAxis) : GridSnapshot :=
  ⟨(gridXAxes axes).map serializeAxis, (gridYAxes axes).map serializeAxis⟩

/-- The `AxisGrid` class: two axis sequences, each re-sorted ascending by
the `coordinate` key on construction. -/
structure AxisGrid where
  x_axes : List SerializedAxis
  y_axes : List SerializedAxis
deriving DecidableEq

/-- Model of `AxisGrid.__init__` on in-memory grid data: sort both sequences by the
`coordinate` key. -/
def AxisGrid.build (grid_data : GridSnapshot) : AxisGrid :=
  ⟨List.insertionSort saCoordLE grid_data.x_axes,
    List.insertionSort saCoordLE grid_data.y_axes⟩

/-- Model of `AxisGrid._nearest_axis`: `min(axes, key=lambda axis: abs(axis["coordinate"] - coord))`
on a nonempty list (`None` on an empty one).  Python's `min` keeps the
earliest element on ties, i.e. it replaces the running best only on a
strictly smaller key. -/
def nearestAxis (axes : List SerializedAxis) (coord : ℚ) : Option SerializedAxis :=
  match axes with
  | [] => none
  | a :: rest =>
    some (rest.foldl
      (fun best ax =>
        if |ax.coordinate - coord| < |best.coordinate - coord| then ax else best) a)

/-- The scanning loop of `AxisGrid._span`: walk the axes carrying the last
axis seen; stop at the first axis whose coordinate exceeds `coord`. -/
def spanGo (coord : ℚ) (prev : Option SerializedAxis) :
    List SerializedAxis → Option SerializedAxis × Option SerializedAxis
  | [] => (prev, none)
  | a :: rest =>
    if coord < a.coordinate then (prev, some a) else spanGo coord (some a) rest

/-- Model of `AxisGrid._span`. -/
def span (axes : List SerializedAxis) (coord : ℚ) :
    Option SerializedAxis × Option SerializedAxis :=
  if axes.isEmpty then (none, none) else spanGo coord none axes

/-- The access `axis.get("label") if axis else None` (snapshot axes always carry a
`label` key). -/
def axisLabel (a : Option SerializedAxis) : Option String := a.map (·.label)

/-- The point-location record returned by `AxisGrid.locate_point`. -/
structure LocateResult where
  nearest_x_axis : Option String
  nearest_y_axis : Option String
  x_span_start : Option String
  x_span_end : Option String
  y_span_start : Option String
  y_span_end : Option String
deriving DecidableEq

/-- Model of `AxisGrid.locate_point`. -/
def locatePoint (g : AxisGrid) (x y : ℚ) : LocateResult :=
  let vx := span g.x_axes x
  let vy := span g.y_axes y
  ⟨axisLabel (nearestAxis g.x_axes x), axisLabel (nearestAxis g.y_axes y),
    axisLabel vx.1, axisLabel vx.2, axisLabel vy.1, axisLabel vy.2⟩

/-- An entity record as consumed by `AxisGrid.locate_entity`: the `x`/`y`
fields are absent, or present and numeric (`none` also models a present but
non-float-coercible value, which the source treats identically via its
`try/except`). -/
structure EntityRec where
  xc : Option ℚ
  yc : Option ℚ
deriving DecidableEq

/-- Model of `AxisGrid.locate_entity`: requires numeric x/y, otherwise raises
`ValueError`. -/
def locateEntity (g : AxisGrid) (e : EntityRec) : Except String LocateResult :=
  match e.xc, e.yc with
  | some x, some y => .ok (locatePoint g x y)
  | _, _ => .error "ValueError: cannot infer coordinates from entity data"

/-! State-passing forms of the four query methods.  Each Python method only
reads `self`; the state-passing translation makes that observable: the
returned grid is the input grid. -/

/-- Method `locate_point` as a state transformer on the grid. -/
def locatePointSt (x y : ℚ) (g : AxisGrid) : LocateResult × AxisGrid :=
  (locatePoint g x y, g)

/-- Method `locate_entity` as a state transformer on the grid. -/
def locateEntitySt (e : EntityRec) (g : AxisGrid) :
    Except String LocateResult × AxisGrid :=
  (locateEntity g e, g)

/-- Method `_nearest_axis` applied to the grid's own `x_axes`/`y_axes`, as a state
transformer on the grid. -/
def nearestAxisSt (coord : ℚ) (g : AxisGrid) :
    (Option SerializedAxis × Option SerializedAxis) × AxisGrid :=
  ((nearestAxis g.x_axes coord, nearestAxis g.y_axes coord), g)

/-- Method `_span` applied to the grid's own axis lists, as a state transformer. -/
def spanSt (coord : ℚ) (g : AxisGrid) :
    ((Option SerializedAxis × Option SerializedAxis) ×
      (Option SerializedAxis × Option SerializedAxis)) × AxisGrid :=
  ((span g.x_axes coord, span g.y_axes coord), g)

/-! ## SpaceDetector (`AxisGrid._locate_line_spaces`, `_normalize_point`) -/

/-- Model of `AxisGrid._normalize_point`: validate the tolerance, then snap each
coordinate to the grid `round(c * (1/tolerance)) / (1/tolerance)`.
A non-positive tolerance raises `ValueError` (the message in the source is
"tolerance 必须大于 0", i.e. tolerance must be greater than 0). -/
def normalizePoint (x y tolerance : ℚ) : Except String Pt :=
  if tolerance ≤ 0 then .error "ValueError: tolerance must be greater than 0"
  else
    let snap := 1 / tolerance
    .ok ((pythonRound (x * snap) : ℚ) / snap, (pythonRound (y * snap) : ℚ) / snap)

/-- One parsed line of `_locate_line_spaces`: the two snapped endpoint
nodes, the midpoint, the raw endpoints, the layer and the original index. -/
structure LineGeom where
  p1 : Pt
  p2 : Pt
  midpoint : Pt
  startPt : Pt
  endPt : Pt
  layer : String
  rawIndex : ℕ
deriving DecidableEq

/-- The parsing loop of `_locate_line_spaces`: snap both endpoints of each
line in input order.  With rational input records the `float(...)`
conversion cannot fail, so no record is skipped and the geometry index
equals the raw index; a non-positive tolerance propagates the
`_normalize_point` error, aborting the call. -/
def parseGo (tolerance : ℚ) (i : ℕ) : List RawLine → Except String (List LineGeom)
  | [] => .ok []
  | l :: rest =>
    match normalizePoint l.start_x l.start_y tolerance,
        normalizePoint l.end_x l.end_y tolerance with
    | .ok p1, .ok p2 =>
      match parseGo tolerance (i + 1) rest with
      | .ok gs =>
        .ok (⟨p1, p2, ((l.start_x + l.end_x) / 2, (l.start_y + l.end_y) / 2),
          (l.start_x, l.start_y), (l.end_x, l.end_y), l.layer, i⟩ :: gs)
      | .error e => .error e
    | .error e, _ => .error e
    | _, .error e => .error e

/-- Parse all raw lines starting at index 0. -/
def parseLines (tolerance : ℚ) (lines : List RawLine) : Except String (List LineGeom) :=
  parseGo tolerance 0 lines

/-- The `point_to_lines` adjacency lookup: the indices of the lines having
`p` as one of their snapped endpoints, in ascending index order (the order
in which the source's `defaultdict` accumulates them; a degenerate line
appears twice in the source's list for its one node, a duplication with no
observable effect on the traversal). -/
def neighborsAt (geoms : List LineGeom) (p : Pt) : List ℕ :=
  (List.range geoms.length).filter fun i =>
    match geoms[i]? with
    | some g => decide (g.p1 = p ∨ g.p2 = p)
    | none => false

/-- The `point_coords` first-seen lookup: the raw coordinates recorded for
a snapped node by `point_coords.setdefault`, i.e. the endpoint coordinates
of the first line endpoint (in insertion order: start before end) that
snapped to this node.  The `(0, 0)` default is unreachable for nodes of the
graph. -/
def pointCoord (geoms : List LineGeom) (p : Pt) : Pt :=
  match geoms with
  | [] => (0, 0)
  | g :: rest =>
    if g.p1 = p then g.startPt
    else if g.p2 = p then g.endPt
    else pointCoord rest p

/-- The breadth-first traversal of `_locate_line_spaces`: pop a line index
from the FIFO queue, skip it if already in the component, otherwise add it
together with its two nodes and enqueue the not-yet-collected lines sharing
a node with it.  The `none` index branch is unreachable (the queue only
ever holds valid indices) and skips, mirroring the source where every
queued index is valid. -/
def bfs (geoms : List LineGeom) (queue : List ℕ) (comp : Finset ℕ)
    (nodes : Finset Pt) : Finset ℕ × Finset Pt :=
  match queue with
  | [] => (comp, nodes)
  | i :: rest =>
    if i ∈ comp then bfs geoms rest comp nodes
    else
      match hg : geoms[i]? with
      | none => bfs geoms rest comp nodes
      | some g =>
        bfs geoms
          (rest ++ (neighborsAt geoms g.p1 ++ neighborsAt geoms g.p2).filter
            (fun j => j ∉ insert i comp))
          (insert i comp) (insert g.p1 (insert g.p2 nodes))
termination_by (geoms.length - (comp.filter (· < geoms.length)).card, queue.length)
decreasing_by
  · exact Prod.Lex.right _ (Nat.lt_succ_self _)
  · exact Prod.Lex.right _ (Nat.lt_succ_self _)
  · apply Prod.Lex.left
    have hi : i < geoms.length := (List.getElem?_eq_some_iff.mp hg).1
    have hle : ((insert i comp).filter (· < geoms.length)).card ≤ geoms.length := by
      have hs : ((insert i comp).filter (· < geoms.length)) ⊆ Finset.range geoms.length := by
        intro x hx
        simp only [Finset.mem_filter] at hx
        simpa using hx.2
      simpa using Finset.card_le_card hs
    have hgrow : (comp.filter (· < geoms.length)).card <
        ((insert i comp).filter (· < geoms.length)).card := by
      apply Finset.card_lt_card
      constructor
      · intro x hx
        simp only [Finset.mem_filter] at hx ⊢
        exact ⟨Finset.mem_insert_of_mem hx.1, hx.2⟩
      · intro hsup
        have hmem2 : i ∈ comp.filter (· < geoms.length) := hsup (by
          simp only [Finset.mem_filter]
          exact ⟨Finset.mem_insert_self _ _, hi⟩)
        simp only [Finset.mem_filter] at hmem2
        exact absurd hmem2.1 (by assumption)
    omega

/-- The outer component loop of `_locate_line_spaces`: scan the line
indices in order, skip visited ones, and grow a fresh component from each
unvisited index; the union of the component is added to the visited set.
The source classifies each component in the same loop body; that
classification does not touch the traversal state, so the loop is factored
here into component enumeration (this function) followed by per-component
classification. -/
def componentsGo (geoms : List LineGeom) (visited : Finset ℕ) :
    List ℕ → List (Finset ℕ × Finset Pt)
  | [] => []
  | idx :: rest =>
    if idx ∈ visited then componentsGo geoms visited rest
    else
      bfs geoms [idx] ∅ ∅ ::
        componentsGo geoms (visited ∪ (bfs geoms [idx] ∅ ∅).1) rest

/-- All connected components of the line graph, in order of their smallest
line index. -/
def componentsOf (geoms : List LineGeom) : List (Finset ℕ × Finset Pt) :=
  componentsGo geoms ∅ (List.range geoms.length)

/-- One `defaultdict(int)` increment: `node_degree[p] += 1`, keys kept in
insertion order. -/
def bumpDegree (m : List (Pt × ℕ)) (p : Pt) : List (Pt × ℕ) :=
  match m with
  | [] => [(p, 1)]
  | (q, n) :: rest =>
    if q = p then (q, n + 1) :: rest else (q, n) :: bumpDegree rest p

/-- One iteration of the degree-counting loop: bump both endpoint nodes of
line `i` (an invalid index, which cannot occur, contributes nothing). -/
def degStep (geoms : List LineGeom) (m : List (Pt × ℕ)) (i : ℕ) : List (Pt × ℕ) :=
  match geoms[i]? with
  | some g => bumpDegree (bumpDegree m g.p1) g.p2
  | none => m

/-- The degree-counting loop: for every line of the component (the source
iterates the `component_lines` set; over small CPython ints that iteration
is in ascending order, matching `Finset.sort`), bump both endpoint
nodes. -/
def degreesOf (geoms : List LineGeom) (comp : Finset ℕ) : List (Pt × ℕ) :=
  (comp.sort (· ≤ ·)).foldl (degStep geoms) []

/-- The `is_closed` decision of the source: at least `min_lines` lines, at
least `min_lines` distinct nodes, and every entry of the degree dictionary
equal to 2. -/
def isClosedB (minLines : ℕ) (geoms : List LineGeom) (c : Finset ℕ × Finset Pt) : Bool :=
  minLines ≤ c.1.card ∧ minLines ≤ c.2.card ∧
    (degreesOf geoms c.1).all fun kv => kv.2 = 2

/-- A `closed_spaces` entry.  The source renders the centroid through
`f"{...:.4f}"`; the exact rational value is kept here (fixed-format
printing is presentation on top of it). -/
structure ClosedSpace where
  line_count : ℕ
  node_count : ℕ
  center_x : ℚ
  center_y : ℚ
  location : LocateResult
deriving DecidableEq

/-- An `open_lines` entry. -/
structure OpenLine where
  line_index : ℕ
  layer : String
  mid_x : ℚ
  mid_y : ℚ
  location : LocateResult
deriving DecidableEq

/-- The result record of `_locate_line_spaces`. -/
structure SpacesResult where
  closed_spaces : List ClosedSpace
  open_lines : List OpenLine
deriving DecidableEq

/-- Build a `closed_spaces` entry for a component: centroid of the raw
coordinates of its nodes (the node set is iterated in sorted order,
irrelevant for the two sums), located on the grid. -/
def mkClosed (grid : AxisGrid) (geoms : List LineGeom)
    (c : Finset ℕ × Finset Pt) : ClosedSpace :=
  let cx := (∑ p ∈ c.2, (pointCoord geoms p).1) / c.2.card
  let cy := (∑ p ∈ c.2, (pointCoord geoms p).2) / c.2.card
  ⟨c.1.card, c.2.card, cx, cy, locatePoint grid cx cy⟩

/-- Build the `open_lines` entries of a non-closed component, one per line,
in ascending line-index order (the source iterates the `component_lines`
set). -/
def mkOpens (grid : AxisGrid) (geoms : List LineGeom)
    (c : Finset ℕ × Finset Pt) : List OpenLine :=
  (c.1.sort (· ≤ ·)).filterMap fun i =>
    match geoms[i]? with
    | some g =>
      some ⟨g.rawIndex, g.layer, g.midpoint.1, g.midpoint.2,
        locatePoint grid g.midpoint.1 g.midpoint.2⟩
    | none => none

/-- Classify one component, appending either a closed-space entry or the
per-line open entries. -/
def classifyStep (grid : AxisGrid) (geoms : List LineGeom) (minLines : ℕ)
    (acc : SpacesResult) (c : Finset ℕ × Finset Pt) : SpacesResult :=
  if isClosedB minLines geoms c then
    { acc with closed_spaces := acc.closed_spaces ++ [mkClosed grid geoms c] }
  else
    { acc with open_lines := acc.open_lines ++ mkOpens grid geoms c }

/-- Classify every component and accumulate the two output lists. -/
def detectFromGeoms (grid : AxisGrid) (geoms : List LineGeom) (minLines : ℕ) :
    SpacesResult :=
  (componentsOf geoms).foldl (classifyStep grid geoms minLines) ⟨[], []⟩

/-- Model of `AxisGrid._locate_line_spaces`: parse and snap the input lines (a
non-positive tolerance aborts with the `_normalize_point` error as soon as
the first line is processed), return the empty result when no line
survives, otherwise classify the connected components. -/
def locateLineSpaces (grid : AxisGrid) (lines : List RawLine) (minLines : ℕ)
    (tolerance : ℚ) : Except String SpacesResult :=
  match parseLines tolerance lines with
  | .error e => .error e
  | .ok geoms =>
    if geoms.isEmpty then .ok ⟨[], []⟩
    else .ok (detectFromGeoms grid geoms minLines)

/-! Extensional (specification-side) view of a component used to state the
classification claim: the node set of a component is the set of snapped
endpoints of its lines, and the degree of a node is the number of
line-endpoints of the component incident to it. -/

/-- The snapped endpoints of one (possibly absent) line. -/
def endpointsAt (geoms : List LineGeom) (i : ℕ) : Finset Pt :=
  match geoms[i]? with
  | some g => {g.p1, g.p2}
  | none => ∅

/-- All snapped endpoints of a set of lines. -/
def endpointsOf (geoms : List LineGeom) (c : Finset ℕ) : Finset Pt :=
  c.biUnion (endpointsAt geoms)

/-- The contribution of line `i` to the degree of node `p`: how many of
its two snapped endpoints equal `p`. -/
def degContrib (geoms : List LineGeom) (i : ℕ) (p : Pt) : ℕ :=
  match geoms[i]? with
  | some g => (if g.p1 = p then 1 else 0) + (if g.p2 = p then 1 else 0)
  | none => 0

/-- The degree of node `p` in the component `c`: the number of
line-endpoints of lines of `c` incident to `p` (a degenerate line whose
two endpoints snapped together contributes 2). -/
def degOf (geoms : List LineGeom) (c : Finset ℕ) (p : Pt) : ℕ :=
  ∑ i ∈ c, degContrib geoms i p

/-- The classification predicate as the specification states it: at least
`min_lines` lines, at least `min_lines` distinct snapped nodes, and every
node of the component of degree exactly 2. -/
def ClosedPred (minLines : ℕ) (geoms : List LineGeom) (c : Finset ℕ × Finset Pt) : Prop :=
  minLines ≤ c.1.card ∧ minLines ≤ c.2.card ∧ ∀ p ∈ c.2, degOf geoms c.1 p = 2

instance (minLines : ℕ) (geoms : List LineGeom) (c : Finset ℕ × Finset Pt) :
    Decidable (ClosedPred minLines geoms c) := by
  unfold ClosedPred
  infer_instance

/-! ## Orientation classification (claim C3) -/

/-- C3, counterexample.  The claim states that a line with
`|y1 − y2| < 1.0` is classified horizontal; but the source tests
`abs(x1 - x2) < 1.0` first, so the near-point line from `(0, 0)` to
`(1/2, 1/2)` — whose coordinate differences are both `1/2 < 1` — is
classified vertical, not horizontal. -/
theorem classify_horizontal_cex :
    |(0 : ℚ) - 1 / 2| < 1 ∧
      classifyLine 0 0 (1 / 2) (1 / 2) = LineOrientation.vertical ∧
      classifyLine 0 0 (1 / 2) (1 / 2) ≠ LineOrientation.horizontal := by
  have h : |(2 : ℚ)⁻¹| < 1 := by
    rw [abs_of_pos] <;> norm_num
  have h0 : |(0 : ℚ) - 1 / 2| < 1 := by rw [abs_sub_lt_iff]; norm_num
  refine ⟨h0, ?_, ?_⟩ <;> simp [classifyLine, h]

/-- C3, amended.  The orientation dispatch is an `if`/`elif` chain:
a line is classified vertical iff `|x1 − x2| < 1`; horizontal iff
`|x1 − x2| ≥ 1` and `|y1 − y2| < 1`; and excluded as diagonal iff both
differences are `≥ 1`. -/
theorem classify_characterization (x1 y1 x2 y2 : ℚ) :
    (classifyLine x1 y1 x2 y2 = LineOrientation.vertical ↔ |x1 - x2| < 1) ∧
    (classifyLine x1 y1 x2 y2 = LineOrientation.horizontal ↔
      1 ≤ |x1 - x2| ∧ |y1 - y2| < 1) ∧
    (classifyLine x1 y1 x2 y2 = LineOrientation.diagonal ↔
      1 ≤ |x1 - x2| ∧ 1 ≤ |y1 - y2|) := by
  unfold classifyLine
  split_ifs with h1 h2 <;>
    refine ⟨?_, ?_, ?_⟩ <;> simp_all

/-! ## Span queries (claim C2) -/

/-- Every element of a coordinate-sorted list has coordinate at most that
of the last element. -/
theorem sorted_coord_le_getLast :
    ∀ (l : List SerializedAxis), l.Sorted saCoordLE →
      ∀ b ∈ l, ∀ aL, l.getLast? = some aL → b.coordinate ≤ aL.coordinate := by
  intro l
  induction l with
  | nil => intro _ b hb; cases hb
  | cons a tl ih =>
    intro hs b hb aL hlast
    rcases List.sorted_cons.mp hs with ⟨ha, htl⟩
    cases tl with
    | nil =>
      simp only [List.getLast?_singleton, Option.some.injEq] at hlast
      rcases List.mem_singleton.mp hb with rfl
      exact hlast ▸ le_refl _
    | cons c tl' =>
      have hlast' : (c :: tl').getLast? = some aL := by
        simpa [List.getLast?_cons_cons] using hlast
      rcases List.mem_cons.mp hb with rfl | hb'
      · have hcL : aL ∈ c :: tl' := by
          have := List.getLast?_eq_getLast (c :: tl') (by simp)
          rw [this] at hlast'
          exact (Option.some.injEq _ _).mp hlast' ▸ List.getLast_mem _
        exact ha aL hcL
      · exact ih htl b hb' aL hlast'

/-- The second component of `spanGo` is the first axis in the remaining
list whose coordinate strictly exceeds the query value. -/
theorem spanGo_snd (coord : ℚ) :
    ∀ (l : List SerializedAxis) (prev : Option SerializedAxis),
      (spanGo coord prev l).2 = l.find? fun a => decide (coord < a.coordinate) := by
  intro l
  induction l with
  | nil => intro prev; rfl
  | cons a tl ih =>
    intro prev
    by_cases h : coord < a.coordinate <;>
      simp [spanGo, List.find?_cons, h, ih]

/-- Once `spanGo` carries a real previous axis, its first component can no
longer be `none`. -/
theorem spanGo_fst_ne_none (coord : ℚ) :
    ∀ (l : List SerializedAxis) (x : SerializedAxis),
      (spanGo coord (some x) l).1 ≠ none := by
  intro l
  induction l with
  | nil => intro x; simp [spanGo]
  | cons a tl ih =>
    intro x
    by_cases h : coord < a.coordinate <;> simp [spanGo, h]
    exact ih a

/-- Main invariant of the `spanGo` scan on a sorted list: a returned
previous axis lies in the list (or is the carried-in one), has coordinate
at most the query value, is maximal among the list elements with coordinate
at most the query value, and dominates the carried-in axis. -/
theorem spanGo_fst_spec (coord : ℚ) :
    ∀ (l : List SerializedAxis) (prev : Option SerializedAxis),
      l.Sorted saCoordLE →
      (∀ x, prev = some x → x.coordinate ≤ coord ∧
        ∀ b ∈ l, x.coordinate ≤ b.coordinate) →
      ∀ a, (spanGo coord prev l).1 = some a →
        (prev = some a ∨ a ∈ l) ∧ a.coordinate ≤ coord ∧
          (∀ b ∈ l, b.coordinate ≤ coord → b.coordinate ≤ a.coordinate) ∧
          (∀ x, prev = some x → x.coordinate ≤ a.coordinate) := by
  intro l
  induction l with
  | nil =>
    intro prev _ hx a ha
    simp only [spanGo] at ha
    exact ⟨Or.inl ha, (hx a ha).1, by simp, fun x hxx => by
      rw [hxx] at ha; cases ha; exact le_refl _⟩
  | cons c tl ih =>
    intro prev hs hx a ha
    rcases List.sorted_cons.mp hs with ⟨hc, htl⟩
    by_cases h : coord < c.coordinate
    · simp only [spanGo, if_pos h] at ha
      refine ⟨Or.inl ha, (hx a ha).1, ?_, fun x hxx => by
        rw [hxx] at ha; cases ha; exact le_refl _⟩
      intro b hb hble
      exfalso
      rcases List.mem_cons.mp hb with rfl | hb'
      · exact absurd hble (not_le.mpr h)
      · exact absurd hble (not_le.mpr (lt_of_lt_of_le h (hc b hb')))
    · simp only [spanGo, if_neg h] at ha
      have hcle : c.coordinate ≤ coord := not_lt.mp h
      have hx' : ∀ x, (some c : Option SerializedAxis) = some x →
          x.coordinate ≤ coord ∧ ∀ b ∈ tl, x.coordinate ≤ b.coordinate := by
        intro x hcx
        cases hcx
        exact ⟨hcle, fun b hb => hc b hb⟩
      rcases ih (some c) htl hx' a ha with ⟨hmem, hale, hmax, hdom⟩
      have hca : c.coordinate ≤ a.coordinate := hdom c rfl
      refine ⟨?_, hale, ?_, ?_⟩
      · rcases hmem with hac | hatl
        · cases hac; exact Or.inr (List.mem_cons_self _ _)
        · exact Or.inr (List.mem_cons_of_mem _ hatl)
      · intro b hb hble
        rcases List.mem_cons.mp hb with rfl | hb'
        · exact hca
        · exact hmax b hb' hble
      · intro x hxx
        exact le_trans ((hx x hxx).2 c (List.mem_cons_self _ _)) hca

/-- The specification of `AxisGrid._span` on a coordinate-sorted axis list:
the second result is the first axis with coordinate strictly above the
query; the first result is the greatest axis with coordinate at most the
query; the first result is `none` exactly when the query is below the first
axis; the second is `none` exactly when the query is at or above the last
axis; and whenever both are present they bracket the query. -/
def SpanSpec (axes : List SerializedAxis) (coord : ℚ) : Prop :=
  (span axes coord).2 = (axes.find? fun a => decide (coord < a.coordinate)) ∧
  (∀ a, (span axes coord).1 = some a →
    a ∈ axes ∧ a.coordinate ≤ coord ∧
      ∀ b ∈ axes, b.coordinate ≤ coord → b.coordinate ≤ a.coordinate) ∧
  (∀ a0, axes.head? = some a0 →
    ((span axes coord).1 = none ↔ coord < a0.coordinate)) ∧
  (∀ aL, axes.getLast? = some aL →
    ((span axes coord).2 = none ↔ aL.coordinate ≤ coord)) ∧
  (∀ a b, (span axes coord).1 = some a → (span axes coord).2 = some b →
    a.coordinate ≤ coord ∧ coord < b.coordinate)

/-- C2: `_span` satisfies its bracketing specification on every axis list
sorted ascending by coordinate. -/
theorem span_correct (axes : List SerializedAxis) (coord : ℚ)
    (hsort : axes.Sorted saCoordLE) : SpanSpec axes coord := by
  have hsnd : (span axes coord).2 =
      axes.find? fun a => decide (coord < a.coordinate) := by
    cases axes with
    | nil => rfl
    | cons a tl => simpa [span] using spanGo_snd coord (a :: tl) none
  have hfst : ∀ a, (span axes coord).1 = some a →
      a ∈ axes ∧ a.coordinate ≤ coord ∧
        ∀ b ∈ axes, b.coordinate ≤ coord → b.coordinate ≤ a.coordinate := by
    intro a ha
    cases axes with
    | nil => simp [span] at ha
    | cons c tl =>
      have ha' : (spanGo coord none (c :: tl)).1 = some a := by
        simpa [span] using ha
      rcases spanGo_fst_spec coord (c :: tl) none hsort (by simp) a ha' with
        ⟨hmem, hale, hmax, _⟩
      rcases hmem with hno | hm
      · cases hno
      · exact ⟨hm, hale, hmax⟩
  refine ⟨hsnd, hfst, ?_, ?_, ?_⟩
  · intro a0 h0
    cases axes with
    | nil => cases h0
    | cons c tl =>
      cases h0
      constructor
      · intro hnone
        by_contra hlt
        have hle : a0.coordinate ≤ coord := not_lt.mp hlt
        have : (spanGo coord none (a0 :: tl)).1 = none := by
          simpa [span] using hnone
        rw [spanGo, if_neg (not_lt.mpr hle)] at this
        exact spanGo_fst_ne_none coord tl a0 this
      · intro hlt
        simp [span, spanGo, if_pos hlt]
  · intro aL hL
    rw [hsnd, List.find?_eq_none]
    constructor
    · intro hall
      have haLmem : aL ∈ axes := by
        cases axes with
        | nil => cases hL
        | cons c tl =>
          have := List.getLast?_eq_getLast (c :: tl) (by simp)
          rw [this] at hL
          exact (Option.some.injEq _ _).mp hL ▸ List.getLast_mem _
      have := hall aL haLmem
      simpa using this
    · intro hle b hb
      have := sorted_coord_le_getLast axes hsort b hb aL hL
      simp only [decide_eq_true_eq]
      push_neg
      exact le_trans this hle
  · intro a b ha hb
    refine ⟨(hfst a ha).2.1, ?_⟩
    rw [hsnd] at hb
    have := List.find?_some hb
    simpa using this

/-! ## Nearest-axis queries (claim C7) -/

/-- One step of Python's `min(..., key=...)`: replace the running best only
on a strictly smaller key. -/
def nearestStep (coord : ℚ) (best ax : SerializedAxis) : SerializedAxis :=
  if |ax.coordinate - coord| < |best.coordinate - coord| then ax else best

/-- Invariant of the `min` fold: the result is an element of the scanned
list, minimizes the distance key, is the running best unless strictly
better, and — on a coordinate-sorted list — resolves distance ties towards
the lowest coordinate. -/
theorem nearestFold_spec (coord : ℚ) :
    ∀ (rest : List SerializedAxis) (best : SerializedAxis),
      (best :: rest).Sorted saCoordLE →
      (rest.foldl (nearestStep coord) best = best ∨
          rest.foldl (nearestStep coord) best ∈ rest) ∧
        (∀ b ∈ best :: rest,
          |(rest.foldl (nearestStep coord) best).coordinate - coord| ≤
            |b.coordinate - coord|) ∧
        (∀ b ∈ best :: rest,
          |b.coordinate - coord| =
              |(rest.foldl (nearestStep coord) best).coordinate - coord| →
            (rest.foldl (nearestStep coord) best).coordinate ≤ b.coordinate) ∧
        (rest.foldl (nearestStep coord) best = best ∨
          |(rest.foldl (nearestStep coord) best).coordinate - coord| <
            |best.coordinate - coord|) := by
  intro rest
  induction rest with
  | nil =>
    intro best _
    refine ⟨Or.inl rfl, ?_, ?_, Or.inl rfl⟩
    · intro b hb
      rcases List.mem_singleton.mp hb with rfl
      simp
    · intro b hb _
      rcases List.mem_singleton.mp hb with rfl
      simp
  | cons x tl ih =>
    intro best hs
    rcases List.sorted_cons.mp hs with ⟨hble, hs'⟩
    have hbx : best.coordinate ≤ x.coordinate := hble x (List.mem_cons_self _ _)
    have hs'' : (nearestStep coord best x :: tl).Sorted saCoordLE := by
      rcases List.sorted_cons.mp hs' with ⟨hxle, htl⟩
      unfold nearestStep
      split_ifs
      · exact List.sorted_cons.mpr ⟨hxle, htl⟩
      · exact List.sorted_cons.mpr
          ⟨fun b hb => le_trans hbx (hxle b hb), htl⟩
    have hfold : (x :: tl).foldl (nearestStep coord) best =
        tl.foldl (nearestStep coord) (nearestStep coord best x) := rfl
    rcases ih (nearestStep coord best x) hs'' with ⟨hmem, hmin, htie, hstrict⟩
    rw [hfold]
    set r := tl.foldl (nearestStep coord) (nearestStep coord best x) with hr
    constructor
    · rcases hmem with hrb | hrtl
      · unfold nearestStep at hrb
        split_ifs at hrb
        · exact Or.inr (hrb ▸ List.mem_cons_self _ _)
        · exact Or.inl hrb
      · exact Or.inr (List.mem_cons_of_mem _ hrtl)
    have hminx : |r.coordinate - coord| ≤ |x.coordinate - coord| := by
      by_cases hcase : |x.coordinate - coord| < |best.coordinate - coord|
      · have := hmin (nearestStep coord best x) (List.mem_cons_self _ _)
        unfold nearestStep at this
        rw [if_pos hcase] at this
        exact this
      · have hxb : |best.coordinate - coord| ≤ |x.coordinate - coord| :=
          not_lt.mp hcase
        have := hmin (nearestStep coord best x) (List.mem_cons_self _ _)
        unfold nearestStep at this
        rw [if_neg hcase] at this
        exact le_trans this hxb
    have hminbest : |r.coordinate - coord| ≤ |best.coordinate - coord| := by
      by_cases hcase : |x.coordinate - coord| < |best.coordinate - coord|
      · exact le_trans hminx (le_of_lt hcase)
      · have := hmin (nearestStep coord best x) (List.mem_cons_self _ _)
        unfold nearestStep at this
        rw [if_neg hcase] at this
        exact this
    refine ⟨?_, ?_, ?_⟩
    · intro b hb
      rcases List.mem_cons.mp hb with rfl | hb'
      · exact hminbest
      rcases List.mem_cons.mp hb' with rfl | hb'' 
      · exact hminx
      · exact hmin b (List.mem_cons_of_mem _ hb'')
    · intro b hb heq
      by_cases hcase : |x.coordinate - coord| < |best.coordinate - coord|
      · have hstep : nearestStep coord best x = x := by
          unfold nearestStep; rw [if_pos hcase]
        rcases List.mem_cons.mp hb with rfl | hb'
        · exfalso
          rcases hstrict with hrx | hlt
          · rw [hstep] at hrx
            rw [hrx] at heq
            exact absurd heq.symm (ne_of_lt hcase)
          · rw [hstep] at hlt
            have : |b.coordinate - coord| < |b.coordinate - coord| :=
              lt_of_le_of_lt (le_of_eq heq) (lt_trans hlt hcase)
            exact lt_irrefl _ this
        · exact htie b (show b ∈ nearestStep coord best x :: tl by
            rw [hstep]; exact hb') heq
      · have hstep : nearestStep coord best x = best := by
          unfold nearestStep; rw [if_neg hcase]
        rcases List.mem_cons.mp hb with rfl | hb'
        · refine htie b ?_ heq
          rw [hstep]
          exact List.mem_cons_self _ _
        rcases List.mem_cons.mp hb' with rfl | hb''
        · rcases hstrict with hrbest | hlt
          · rw [hstep] at hrbest
            rw [hrbest]
            exact hbx
          · exfalso
            rw [hstep] at hlt
            have hxb : |best.coordinate - coord| ≤ |b.coordinate - coord| :=
              not_lt.mp hcase
            have : |b.coordinate - coord| < |b.coordinate - coord| :=
              lt_of_le_of_lt (le_of_eq heq) (lt_of_lt_of_le hlt hxb)
            exact lt_irrefl _ this
        · exact htie b (List.mem_cons_of_mem _ hb'') heq
    · rcases hstrict with hrstep | hlt
      · unfold nearestStep at hrstep
        split_ifs at hrstep with hcase
        · exact Or.inr (by rw [hrstep]; exact hcase)
        · exact Or.inl hrstep
      · by_cases hcase : |x.coordinate - coord| < |best.coordinate - coord|
        · have hstep : nearestStep coord best x = x := by
            unfold nearestStep; rw [if_pos hcase]
          rw [hstep] at hlt
          exact Or.inr (lt_trans hlt hcase)
        · have hstep : nearestStep coord best x = best := by
            unfold nearestStep; rw [if_neg hcase]
          rw [hstep] at hlt
          exact Or.inr hlt

/-- The specification of `AxisGrid._nearest_axis`: `None` exactly on the
empty list; otherwise the returned axis belongs to the list, minimizes
`|coordinate − value|`, and distance ties are resolved towards the lowest
coordinate. -/
def NearestSpec (axes : List SerializedAxis) (coord : ℚ) : Prop :=
  (nearestAxis axes coord = none ↔ axes = []) ∧
  ∀ a, nearestAxis axes coord = some a →
    a ∈ axes ∧
      (∀ b ∈ axes, |a.coordinate - coord| ≤ |b.coordinate - coord|) ∧
      (∀ b ∈ axes, |b.coordinate - coord| = |a.coordinate - coord| →
        a.coordinate ≤ b.coordinate)

/-- C7: `_nearest_axis` satisfies its specification on every axis list
sorted ascending by coordinate. -/
theorem nearestAxis_correct (axes : List SerializedAxis) (coord : ℚ)
    (hsort : axes.Sorted saCoordLE) : NearestSpec axes coord := by
  constructor
  · cases axes with
    | nil => simp [nearestAxis]
    | cons a tl => simp [nearestAxis]
  · intro a ha
    cases axes with
    | nil => cases ha
    | cons c tl =>
      have hfold : tl.foldl (nearestStep coord) c = a := by
        have hna : nearestAxis (c :: tl) coord =
            some (tl.foldl (nearestStep coord) c) := rfl
        rw [hna] at ha
        exact (Option.some.injEq _ _).mp ha
      rcases nearestFold_spec coord tl c hsort with ⟨hmem, hmin, htie, _⟩
      rw [hfold] at hmem hmin htie
      refine ⟨?_, hmin, htie⟩
      rcases hmem with rfl | hm
      · exact List.mem_cons_self _ _
      · exact List.mem_cons_of_mem _ hm

/-! ## Axis labeling (claims C5 and C10) -/

/-- A text qualifies as a label candidate for an axis: stripped content of
at most 8 characters and squared endpoint distance below the squared search
radius. -/
def QualText (radiusSq : ℚ) (axis : GridAxis) (t : RawText) : Prop :=
  (pyStrip t.content).length ≤ 8 ∧ minEndpointDistSq axis t < radiusSq

/-- A step of the label search skips texts longer than 8 stripped
characters. -/
theorem labelStep_skip (radiusSq : ℚ) (axis : GridAxis)
    (st : Option String × Option ℚ) (t : RawText)
    (hlen : 8 < (pyStrip t.content).length) :
    labelStep radiusSq axis st t = st := by
  unfold labelStep
  rw [if_pos hlen]

/-- A step of the label search with no running minimum yet. -/
theorem labelStep_none (radiusSq : ℚ) (axis : GridAxis)
    (st : Option String × Option ℚ) (t : RawText)
    (hlen : ¬8 < (pyStrip t.content).length) (h2 : st.2 = none) :
    labelStep radiusSq axis st t =
      if minEndpointDistSq axis t < radiusSq then
        (some (pyStrip t.content), some (minEndpointDistSq axis t))
      else st := by
  unfold labelStep
  rw [if_neg hlen, h2]

/-- A step of the label search with a running minimum. -/
theorem labelStep_some (radiusSq : ℚ) (axis : GridAxis)
    (st : Option String × Option ℚ) (t : RawText) (m : ℚ)
    (hlen : ¬8 < (pyStrip t.content).length) (h2 : st.2 = some m) :
    labelStep radiusSq axis st t =
      if minEndpointDistSq axis t < radiusSq ∧ minEndpointDistSq axis t < m then
        (some (pyStrip t.content), some (minEndpointDistSq axis t))
      else st := by
  unfold labelStep
  rw [if_neg hlen, h2]

/-- Invariant of the label search fold, relative to a fixed strict winner
`tstar`: the running minimum is still absent, or strictly above the
winner's distance, or the state has locked onto the winner. -/
def LabelInv (radiusSq : ℚ) (axis : GridAxis) (tstar : RawText)
    (st : Option String × Option ℚ) : Prop :=
  st.2 = none ∨
    (∃ d, st.2 = some d ∧ minEndpointDistSq axis tstar < d) ∨
    st = (some (pyStrip tstar.content), some (minEndpointDistSq axis tstar))

/-- The label-search invariant is preserved along any run of texts each of
which is either unqualified, the winner itself, or strictly farther than
the winner. -/
theorem labelFold_inv (radiusSq : ℚ) (axis : GridAxis) (tstar : RawText) :
    ∀ (l : List RawText) (st : Option String × Option ℚ),
      (∀ u ∈ l, ¬QualText radiusSq axis u ∨ u = tstar ∨
        minEndpointDistSq axis tstar < minEndpointDistSq axis u) →
      LabelInv radiusSq axis tstar st →
      LabelInv radiusSq axis tstar (l.foldl (labelStep radiusSq axis) st) := by
  intro l
  induction l with
  | nil => intro st _ hinv; exact hinv
  | cons u l ih =>
    intro st hl hinv
    refine ih (labelStep radiusSq axis st u)
      (fun v hv => hl v (List.mem_cons_of_mem _ hv)) ?_
    have hu := hl u (List.mem_cons_self _ _)
    by_cases hlen : 8 < (pyStrip u.content).length
    · rw [labelStep_skip radiusSq axis st u hlen]; exact hinv
    rcases hinv with h2 | ⟨d, hd, hlt⟩ | heq
    · rw [labelStep_none radiusSq axis st u hlen h2]
      by_cases hrad : minEndpointDistSq axis u < radiusSq
      · rw [if_pos hrad]
        have hqu : QualText radiusSq axis u := ⟨not_lt.mp hlen, hrad⟩
        rcases hu with hnq | rfl | hfar
        · exact absurd hqu hnq
        · exact Or.inr (Or.inr rfl)
        · exact Or.inr (Or.inl ⟨_, rfl, hfar⟩)
      · rw [if_neg hrad]
        exact Or.inl h2
    · rw [labelStep_some radiusSq axis st u d hlen hd]
      by_cases hcond : minEndpointDistSq axis u < radiusSq ∧
          minEndpointDistSq axis u < d
      · rw [if_pos hcond]
        have hqu : QualText radiusSq axis u := ⟨not_lt.mp hlen, hcond.1⟩
        rcases hu with hnq | rfl | hfar
        · exact absurd hqu hnq
        · exact Or.inr (Or.inr rfl)
        · exact Or.inr (Or.inl ⟨_, rfl, hfar⟩)
      · rw [if_neg hcond]
        exact Or.inr (Or.inl ⟨d, hd, hlt⟩)
    · rw [labelStep_some radiusSq axis st u (minEndpointDistSq axis tstar) hlen
        (by rw [heq])]
      by_cases hcond : minEndpointDistSq axis u < radiusSq ∧
          minEndpointDistSq axis u < minEndpointDistSq axis tstar
      · have hqu : QualText radiusSq axis u := ⟨not_lt.mp hlen, hcond.1⟩
        rcases hu with hnq | rfl | hfar
        · exact absurd hqu hnq
        · exact absurd hcond.2 (lt_irrefl _)
        · exact absurd (lt_trans hfar hcond.2) (lt_irrefl _)
      · rw [if_neg hcond]
        exact Or.inr (Or.inr heq)

/-- Once the label search has locked onto the strict winner, no later text
that is unqualified, equal to the winner, or strictly farther can dislodge
it. -/
theorem labelFold_absorb (radiusSq : ℚ) (axis : GridAxis) (tstar : RawText) :
    ∀ (l : List RawText),
      (∀ u ∈ l, ¬QualText radiusSq axis u ∨ u = tstar ∨
        minEndpointDistSq axis tstar < minEndpointDistSq axis u) →
      l.foldl (labelStep radiusSq axis)
          (some (pyStrip tstar.content), some (minEndpointDistSq axis tstar)) =
        (some (pyStrip tstar.content), some (minEndpointDistSq axis tstar)) := by
  intro l
  induction l with
  | nil => intro _; rfl
  | cons u l ih =>
    intro hl
    have hu := hl u (List.mem_cons_self _ _)
    have hstep : labelStep radiusSq axis
        (some (pyStrip tstar.content), some (minEndpointDistSq axis tstar)) u =
        (some (pyStrip tstar.content), some (minEndpointDistSq axis tstar)) := by
      by_cases hlen : 8 < (pyStrip u.content).length
      · exact labelStep_skip radiusSq axis _ u hlen
      rw [labelStep_some radiusSq axis _ u (minEndpointDistSq axis tstar) hlen rfl]
      by_cases hcond : minEndpointDistSq axis u < radiusSq ∧
          minEndpointDistSq axis u < minEndpointDistSq axis tstar
      · exfalso
        have hqu : QualText radiusSq axis u := ⟨not_lt.mp hlen, hcond.1⟩
        rcases hu with hnq | rfl | hfar
        · exact absurd hqu hnq
        · exact absurd hcond.2 (lt_irrefl _)
        · exact absurd (lt_trans hfar hcond.2) (lt_irrefl _)
      · rw [if_neg hcond]
    rw [List.foldl_cons, hstep]
    exact ih fun v hv => hl v (List.mem_cons_of_mem _ hv)

/-- Processing the strict winner from any state satisfying the invariant
locks the state onto the winner. -/
theorem labelFold_step_winner (radiusSq : ℚ) (axis : GridAxis) (tstar : RawText)
    (hlen : (pyStrip tstar.content).length ≤ 8)
    (hrad : minEndpointDistSq axis tstar < radiusSq)
    (st : Option String × Option ℚ) (hinv : LabelInv radiusSq axis tstar st) :
    labelStep radiusSq axis st tstar =
      (some (pyStrip tstar.content), some (minEndpointDistSq axis tstar)) := by
  rcases hinv with h2 | ⟨d, hd, hlt⟩ | heq
  · rw [labelStep_none radiusSq axis st tstar (not_lt.mpr hlen) h2, if_pos hrad]
  · rw [labelStep_some radiusSq axis st tstar d (not_lt.mpr hlen) hd,
      if_pos ⟨hrad, hlt⟩]
  · rw [labelStep_some radiusSq axis st tstar (minEndpointDistSq axis tstar)
      (not_lt.mpr hlen) (by rw [heq]),
      if_neg (by intro hc; exact absurd hc.2 (lt_irrefl _))]
    exact heq

/-- The full label search returns the strict winner. -/
theorem labelFold_winner (radiusSq : ℚ) (axis : GridAxis) (texts : List RawText)
    (tstar : RawText) (ht : tstar ∈ texts)
    (hlen : (pyStrip tstar.content).length ≤ 8)
    (hrad : minEndpointDistSq axis tstar < radiusSq)
    (hmin : ∀ u ∈ texts, QualText radiusSq axis u → u = tstar ∨
      minEndpointDistSq axis tstar < minEndpointDistSq axis u) :
    texts.foldl (labelStep radiusSq axis) (none, none) =
      (some (pyStrip tstar.content), some (minEndpointDistSq axis tstar)) := by
  rcases List.append_of_mem ht with ⟨l1, l2, rfl⟩
  have hprop : ∀ u ∈ l1 ++ tstar :: l2, ¬QualText radiusSq axis u ∨ u = tstar ∨
      minEndpointDistSq axis tstar < minEndpointDistSq axis u := by
    intro u hu
    by_cases hq : QualText radiusSq axis u
    · exact Or.inr (hmin u hu hq)
    · exact Or.inl hq
  rw [List.foldl_append, List.foldl_cons]
  have hinv1 : LabelInv radiusSq axis tstar
      (l1.foldl (labelStep radiusSq axis) (none, none)) :=
    labelFold_inv radiusSq axis tstar l1 (none, none)
      (fun u hu => hprop u (List.mem_append_left _ hu)) (Or.inl rfl)
  rw [labelFold_step_winner radiusSq axis tstar hlen hrad _ hinv1]
  exact labelFold_absorb radiusSq axis tstar l2
    (fun u hu => hprop u (List.mem_append_right _ (List.mem_cons_of_mem _ hu)))

/-- If no text qualifies, the label search ends empty-handed. -/
theorem labelFold_none (radiusSq : ℚ) (axis : GridAxis) :
    ∀ (l : List RawText),
      (∀ u ∈ l, (pyStrip u.content).length ≤ 8 →
        ¬(minEndpointDistSq axis u < radiusSq)) →
      l.foldl (labelStep radiusSq axis) (none, none) = (none, none) := by
  intro l
  induction l with
  | nil => intro _; rfl
  | cons u l ih =>
    intro hl
    have hstep : labelStep radiusSq axis (none, none) u = (none, none) := by
      by_cases hlen : 8 < (pyStrip u.content).length
      · exact labelStep_skip radiusSq axis _ u hlen
      · rw [labelStep_none radiusSq axis _ u hlen rfl,
          if_neg (hl u (List.mem_cons_self _ _) (not_lt.mp hlen))]
    rw [List.foldl_cons, hstep]
    exact ih fun v hv => hl v (List.mem_cons_of_mem _ hv)

/-- Any label produced by the search traces back to a qualifying text of
the input list. -/
theorem labelFold_provenance (radiusSq : ℚ) (axis : GridAxis) :
    ∀ (l : List RawText) (st : Option String × Option ℚ) (s : String),
      (l.foldl (labelStep radiusSq axis) st).1 = some s →
      st.1 = some s ∨
        ∃ t ∈ l, QualText radiusSq axis t ∧ s = pyStrip t.content := by
  intro l
  induction l with
  | nil => intro st s h; exact Or.inl h
  | cons u l ih =>
    intro st s h
    rw [List.foldl_cons] at h
    rcases ih (labelStep radiusSq axis st u) s h with hst | ⟨t, htl, hq, hs⟩
    · by_cases hlen : 8 < (pyStrip u.content).length
      · rw [labelStep_skip radiusSq axis st u hlen] at hst
        exact Or.inl hst
      rcases hst2 : st.2 with _ | d
      · rw [labelStep_none radiusSq axis st u hlen hst2] at hst
        by_cases hrad : minEndpointDistSq axis u < radiusSq
        · rw [if_pos hrad] at hst
          refine Or.inr ⟨u, List.mem_cons_self _ _, ⟨not_lt.mp hlen, hrad⟩, ?_⟩
          exact ((Option.some.injEq _ _).mp hst).symm
        · rw [if_neg hrad] at hst
          exact Or.inl hst
      · rw [labelStep_some radiusSq axis st u d hlen hst2] at hst
        by_cases hcond : minEndpointDistSq axis u < radiusSq ∧
            minEndpointDistSq axis u < d
        · rw [if_pos hcond] at hst
          refine Or.inr ⟨u, List.mem_cons_self _ _, ⟨not_lt.mp hlen, hcond.1⟩, ?_⟩
          exact ((Option.some.injEq _ _).mp hst).symm
        · rw [if_neg hcond] at hst
          exact Or.inl hst
    · exact Or.inr ⟨t, List.mem_cons_of_mem _ htl, hq, hs⟩

/-- C5, counterexample.  The claim says the labeler assigns the content of
the qualifying candidate with the smallest endpoint distance below the
search radius; but a candidate whose stripped content is empty passes the
length filter and can win the search, and the source's Python truthiness
test `if best_label:` then refuses to assign it, leaving "?". -/
theorem label_empty_winner_cex :
    (pyStrip " ").length ≤ 8 ∧
      minEndpointDistSq ⟨"?", (0, 0), (0, 3000), true, 0⟩ ⟨" ", 0, 0⟩ < 10000 ∧
      (labelAxis [⟨" ", 0, 0⟩] 10000 ⟨"?", (0, 0), (0, 3000), true, 0⟩).label = "?" ∧
      pyStrip " " ≠ "?" := by
  have hstrip : pyStrip " " = "" := rfl
  have hd : minEndpointDistSq ⟨"?", (0, 0), (0, 3000), true, 0⟩ ⟨" ", 0, 0⟩ = 0 := by
    unfold minEndpointDistSq distSq
    norm_num
  refine ⟨by rw [hstrip]; decide, by rw [hd]; norm_num, ?_, by rw [hstrip]; decide⟩
  unfold labelAxis
  rw [List.foldl_cons, List.foldl_nil,
    labelStep_none 10000 _ (none, none) _ (by rw [hstrip]; decide) rfl,
    if_pos (by rw [hd]; norm_num)]
  rw [hstrip]
  rfl

/-- The specification of the axis labeler, amended at the empty-content
corner: only texts with stripped length at most 8 are candidates; the
strictly nearest qualifying candidate supplies the label provided its
stripped content is non-empty; if no candidate qualifies the axis is
unchanged (placeholder "?"); and any label change traces back to a
qualifying candidate (so a text longer than 8 characters never labels an
axis, however near). -/
def LabelSpec : Prop :=
  (∀ (texts : List RawText) (radiusSq : ℚ) (axis : GridAxis) (tstar : RawText),
    tstar ∈ texts → (pyStrip tstar.content).length ≤ 8 →
    minEndpointDistSq axis tstar < radiusSq → pyStrip tstar.content ≠ "" →
    (∀ u ∈ texts, (pyStrip u.content).length ≤ 8 →
      minEndpointDistSq axis u < radiusSq →
      u = tstar ∨ minEndpointDistSq axis tstar < minEndpointDistSq axis u) →
    (labelAxis texts radiusSq axis).label = pyStrip tstar.content) ∧
  (∀ (texts : List RawText) (radiusSq : ℚ) (axis : GridAxis),
    (∀ u ∈ texts, (pyStrip u.content).length ≤ 8 →
      ¬(minEndpointDistSq axis u < radiusSq)) →
    labelAxis texts radiusSq axis = axis) ∧
  (∀ (texts : List RawText) (radiusSq : ℚ) (axis : GridAxis),
    (labelAxis texts radiusSq axis).label ≠ axis.label →
    ∃ t ∈ texts, (pyStrip t.content).length ≤ 8 ∧
      minEndpointDistSq axis t < radiusSq ∧
      (labelAxis texts radiusSq axis).label = pyStrip t.content)

/-- C5, amended: the axis labeler satisfies `LabelSpec`. -/
theorem labelAxis_correct : LabelSpec := by
  refine ⟨?_, ?_, ?_⟩
  · intro texts radiusSq axis tstar ht hlen hrad hne hmin
    unfold labelAxis
    rw [labelFold_winner radiusSq axis texts tstar ht hlen hrad
      (fun u hu hq => hmin u hu hq.1 hq.2)]
    simp only
    rw [if_neg hne]
  · intro texts radiusSq axis hnone
    unfold labelAxis
    rw [labelFold_none radiusSq axis texts hnone]
  · intro texts radiusSq axis hchange
    rcases hfold : (texts.foldl (labelStep radiusSq axis) (none, none)).1 with _ | lbl
    · have hval : labelAxis texts radiusSq axis = axis := by
        unfold labelAxis
        rw [hfold]
      rw [hval] at hchange
      exact absurd rfl hchange
    · have hval : labelAxis texts radiusSq axis =
          if lbl = "" then axis else { axis with label := lbl } := by
        unfold labelAxis
        rw [hfold]
      rcases labelFold_provenance radiusSq axis texts (none, none) lbl hfold with
        hinit | ⟨t, htm, hq, hs⟩
      · cases hinit
      by_cases hemp : lbl = ""
      · rw [hval, if_pos hemp] at hchange
        exact absurd rfl hchange
      · refine ⟨t, htm, hq.1, hq.2, ?_⟩
        rw [hval, if_neg hemp]
        exact hs ▸ rfl

/-- C5, witness (the specification's Scenario D): text "3" at distance 100
from an axis endpoint and text "2234567890" (longer than 8 characters) at
distance 10; the axis is labeled "3". -/
theorem labelAxis_correct_witness :
    (labelAxis [⟨"3", 100, 0⟩, ⟨"2234567890", 10, 0⟩] 25000000
      ⟨"?", (0, 0), (0, 3000), true, 0⟩).label = "3" := by
  have h := labelAxis_correct.1 [⟨"3", 100, 0⟩, ⟨"2234567890", 10, 0⟩] 25000000
    ⟨"?", (0, 0), (0, 3000), true, 0⟩ ⟨"3", 100, 0⟩
    (List.mem_cons_self _ _) (by decide)
    (by unfold minEndpointDistSq distSq; norm_num) (by decide) ?_
  · rw [h]; rfl
  · intro u hu hlen _
    rcases List.mem_cons.mp hu with rfl | hu'
    · exact Or.inl rfl
    rcases List.mem_cons.mp hu' with rfl | hu''
    · exact absurd hlen (by decide)
    · cases hu''

/-- C10: when the strictly nearest qualifying candidate has empty stripped
content, the axis keeps its label ("?" as produced by the clusterer), even
though farther non-empty candidates inside the search radius exist — the
empty winner blocks them. -/
theorem labelAxis_empty_blocks (texts : List RawText) (radiusSq : ℚ)
    (axis : GridAxis) (tstar : RawText) (ht : tstar ∈ texts)
    (hempty : pyStrip tstar.content = "")
    (hrad : minEndpointDistSq axis tstar < radiusSq)
    (hmin : ∀ u ∈ texts, (pyStrip u.content).length ≤ 8 →
      minEndpointDistSq axis u < radiusSq →
      u = tstar ∨ minEndpointDistSq axis tstar < minEndpointDistSq axis u) :
    labelAxis texts radiusSq axis = axis := by
  have hlen : (pyStrip tstar.content).length ≤ 8 := by rw [hempty]; decide
  unfold labelAxis
  rw [labelFold_winner radiusSq axis texts tstar ht hlen hrad
    (fun u hu hq => hmin u hu hq.1 hq.2)]
  show (if pyStrip tstar.content = "" then axis
    else { axis with label := pyStrip tstar.content }) = axis
  rw [if_pos hempty]

/-- C10, witness: a blank text at the axis start point beats a non-empty
text "B" that is within the search radius; the axis label stays "?". -/
theorem labelAxis_empty_blocks_witness :
    labelAxis [⟨"  ", 0, 0⟩, ⟨"B", 100, 0⟩] 25000000
      ⟨"?", (0, 0), (0, 3000), true, 0⟩ = ⟨"?", (0, 0), (0, 3000), true, 0⟩ := by
  refine labelAxis_empty_blocks [⟨"  ", 0, 0⟩, ⟨"B", 100, 0⟩] 25000000
    ⟨"?", (0, 0), (0, 3000), true, 0⟩ ⟨"  ", 0, 0⟩
    (List.mem_cons_self _ _) (by decide)
    (by unfold minEndpointDistSq distSq; norm_num) ?_
  intro u hu _ _
  rcases List.mem_cons.mp hu with rfl | hu'
  · exact Or.inl rfl
  rcases List.mem_cons.mp hu' with rfl | hu''
  · refine Or.inr ?_
    unfold minEndpointDistSq distSq
    norm_num
  · cases hu''

/-! ## Query witnesses and grid construction (claims C2, C7, C8, C9) -/

/-- Concrete axes used by the query-theorem witnesses. -/
def axisA : SerializedAxis := ⟨"A", [0, 0], [0, 10], true, 0⟩

/-- Second concrete witness axis. -/
def axisB : SerializedAxis := ⟨"B", [10, 0], [10, 10], true, 10⟩

/-- C2, witness: the span specification at the two-axis grid `A@0`, `B@10`
probed at 5. -/
theorem span_correct_witness : SpanSpec [axisA, axisB] 5 :=
  span_correct [axisA, axisB] 5 (by
    norm_num [List.sorted_cons, saCoordLE, axisA, axisB])

/-- C7, witness: the nearest-axis specification at the same grid probed
at 5. -/
theorem nearestAxis_correct_witness : NearestSpec [axisA, axisB] 5 :=
  nearestAxis_correct [axisA, axisB] 5 (by
    norm_num [List.sorted_cons, saCoordLE, axisA, axisB])

/-- Serializing a coordinate-sorted axis list yields a coordinate-sorted
serialized list (serialization preserves the `coordinate` field). -/
theorem sorted_serialize (l : List GridAxis) (h : l.Sorted gaCoordLE) :
    (l.map serializeAxis).Sorted saCoordLE := by
  rw [List.Sorted, List.pairwise_map]
  exact h

/-- C8: round-trip through the snapshot.  Rebuilding an `AxisGrid` from
`to_dict` output reproduces the serialized sorted axis sequences exactly
(the constructor's re-sort is the identity on the already-sorted snapshot),
so every `nearest_axis` and `span` query on the rebuilt grid agrees with
the same query on the original grid's sequences, for every probe value. -/
theorem roundtrip_queries (axes : List GridAxis) (v : ℚ) :
    (AxisGrid.build (toDict axes)).x_axes = (gridXAxes axes).map serializeAxis ∧
    (AxisGrid.build (toDict axes)).y_axes = (gridYAxes axes).map serializeAxis ∧
    nearestAxis (AxisGrid.build (toDict axes)).x_axes v =
      nearestAxis ((gridXAxes axes).map serializeAxis) v ∧
    nearestAxis (AxisGrid.build (toDict axes)).y_axes v =
      nearestAxis ((gridYAxes axes).map serializeAxis) v ∧
    span (AxisGrid.build (toDict axes)).x_axes v =
      span ((gridXAxes axes).map serializeAxis) v ∧
    span (AxisGrid.build (toDict axes)).y_axes v =
      span ((gridYAxes axes).map serializeAxis) v := by
  have hx : (AxisGrid.build (toDict axes)).x_axes =
      (gridXAxes axes).map serializeAxis := by
    show List.insertionSort saCoordLE ((gridXAxes axes).map serializeAxis) = _
    exact List.Sorted.insertionSort_eq
      (sorted_serialize _ (List.sorted_insertionSort _ _))
  have hy : (AxisGrid.build (toDict axes)).y_axes =
      (gridYAxes axes).map serializeAxis := by
    show List.insertionSort saCoordLE ((gridYAxes axes).map serializeAxis) = _
    exact List.Sorted.insertionSort_eq
      (sorted_serialize _ (List.sorted_insertionSort _ _))
  exact ⟨hx, hy, by rw [hx], by rw [hy], by rw [hx], by rw [hy]⟩

/-- C9: after construction both axis sequences are sorted ascending by
coordinate, whatever the input order, and each query operation returns the
grid unchanged (the state-passing forms return the input grid). -/
theorem build_sorted_queries_pure (data : GridSnapshot) (x y coord : ℚ)
    (e : EntityRec) :
    (AxisGrid.build data).x_axes.Sorted saCoordLE ∧
    (AxisGrid.build data).y_axes.Sorted saCoordLE ∧
    (locatePointSt x y (AxisGrid.build data)).2 = AxisGrid.build data ∧
    (locateEntitySt e (AxisGrid.build data)).2 = AxisGrid.build data ∧
    (nearestAxisSt coord (AxisGrid.build data)).2 = AxisGrid.build data ∧
    (spanSt coord (AxisGrid.build data)).2 = AxisGrid.build data :=
  ⟨List.sorted_insertionSort _ _, List.sorted_insertionSort _ _, rfl, rfl, rfl, rfl⟩

/-! ## Tolerance validation (claim C6) -/

/-- Python's `round` is the identity on integers. -/
theorem pythonRound_intCast (n : ℤ) : pythonRound (n : ℚ) = n := by
  unfold pythonRound
  rw [Int.floor_intCast]
  simp only [sub_self]
  rw [if_pos (by norm_num)]

/-- Rounding zero gives zero: `round(0) = 0`. -/
theorem pythonRound_zero : pythonRound 0 = 0 := by
  simpa using pythonRound_intCast 0

set_option maxHeartbeats 1000000 in
/-- The clustering loop never fails when the tolerance is nonzero: the
source performs no sign validation on `tolerance`, it only divides by it. -/
theorem buildGroupsGo_ok_of_ne_zero (tol : ℚ) (htol : tol ≠ 0) :
    ∀ (lines : List RawLine) (vg hg : List (ℚ × List Seg)),
      ∃ p, buildGroupsGo tol vg hg lines = .ok p := by
  intro lines
  induction lines with
  | nil => intro vg hg; exact ⟨(vg, hg), rfl⟩
  | cons l rest ih =>
    intro vg hg
    rcases hcl : classifyLine l.start_x l.start_y l.end_x l.end_y with _ | _ | _ <;>
      simp only [buildGroupsGo, hcl, if_neg htol] <;> apply ih

/-- With `tolerance = 0`, the clustering loop raises a division error as
soon as it meets an axis-aligned candidate. -/
theorem buildGroupsGo_zero_error :
    ∀ (lines : List RawLine) (vg hg : List (ℚ × List Seg)) (l : RawLine),
      l ∈ lines → classifyLine l.start_x l.start_y l.end_x l.end_y ≠ .diagonal →
      buildGroupsGo 0 vg hg lines =
        .error "ZeroDivisionError: float division by zero" := by
  intro lines
  induction lines with
  | nil => intro vg hg l hl; cases hl
  | cons l0 rest ih =>
    intro vg hg l hl hnd
    rcases hcl : classifyLine l0.start_x l0.start_y l0.end_x l0.end_y with _ | _ | _
    · simp only [buildGroupsGo, hcl]
      simp
    · simp only [buildGroupsGo, hcl]
      simp
    · simp only [buildGroupsGo, hcl]
      rcases List.mem_cons.mp hl with rfl | hl'
      · exact absurd hcl hnd
      · exact ih vg hg l hl' hnd

/-- The specification of tolerance handling as the code actually implements
it: the space detector validates `point_tolerance` inside
`_normalize_point` and therefore fails — with the `ValueError` — exactly
when it processes at least one line; the axis clusterer performs no
validation at all: any nonzero tolerance (negative included) produces a
result, and a zero tolerance fails with a division error once an
axis-aligned candidate line is met. -/
def ToleranceSpec : Prop :=
  (∀ (grid : AxisGrid) (l0 : RawLine) (rest : List RawLine)
    (minLines : ℕ) (tol : ℚ), tol ≤ 0 →
    locateLineSpaces grid (l0 :: rest) minLines tol =
      .error "ValueError: tolerance must be greater than 0") ∧
  (∀ (tol minLen radiusSq : ℚ) (lines : List RawLine) (texts : List RawText),
    tol ≠ 0 →
    ∃ axes, analyzeStructure tol minLen radiusSq lines texts = .ok axes) ∧
  (∀ (minLen radiusSq : ℚ) (lines : List RawLine) (texts : List RawText)
    (l : RawLine), l ∈ lines →
    classifyLine l.start_x l.start_y l.end_x l.end_y ≠ .diagonal →
    analyzeStructure 0 minLen radiusSq lines texts =
      .error "ZeroDivisionError: float division by zero")

/-- C6, amended: tolerance handling behaves as `ToleranceSpec` describes. -/
theorem tolerance_validation : ToleranceSpec := by
  refine ⟨?_, ?_, ?_⟩
  · intro grid l0 rest minLines tol htol
    simp only [locateLineSpaces, parseLines, parseGo, normalizePoint, if_pos htol]
  · intro tol minLen radiusSq lines texts htol
    rcases buildGroupsGo_ok_of_ne_zero tol htol lines [] [] with ⟨⟨vg, hg⟩, hok⟩
    have hres : analyzeStructure tol minLen radiusSq lines texts =
        .ok (((vg.filterMap fun g => verticalAxisOfGroup minLen g.2) ++
          (hg.filterMap fun g => horizontalAxisOfGroup minLen g.2)).map
            (labelAxis texts radiusSq)) := by
      simp only [analyzeStructure, hok]
    exact ⟨_, hres⟩
  · intro minLen radiusSq lines texts l hl hnd
    simp only [analyzeStructure, buildGroupsGo_zero_error lines [] [] l hl hnd]

/-- C6, witness: a negative point tolerance makes the space detector fail
on a one-line input. -/
theorem tolerance_validation_witness :
    locateLineSpaces (AxisGrid.build ⟨[], []⟩) [⟨0, 0, 10, 0, "W"⟩] 4 (-1) =
      .error "ValueError: tolerance must be greater than 0" :=
  tolerance_validation.1 (AxisGrid.build ⟨[], []⟩) ⟨0, 0, 10, 0, "W"⟩ [] 4 (-1)
    (by norm_num)

/-- C6, counterexample.  The claim says a non-positive clusterer tolerance
raises a configuration error immediately; but the clusterer never checks
the sign of its tolerance: with `tolerance = -100` it clusters a vertical
candidate line normally and returns an axis. -/
theorem clusterer_negative_tolerance_cex :
    ((-100 : ℚ) ≤ 0) ∧
      analyzeStructure (-100) 2000 25000000 [⟨0, 0, 0, 5000, "AXIS"⟩] [] =
        .ok [⟨"?", (0, 0), (0, 5000), true, 0⟩] := by
  refine ⟨by norm_num, ?_⟩
  have hclass : classifyLine 0 0 0 5000 = .vertical := by
    unfold classifyLine
    rw [if_pos (by norm_num)]
  have hkey : (pythonRound ((0 + 0) / 2 / (-100)) : ℚ) * (-100) = 0 := by
    norm_num [pythonRound_zero]
  have hgroups : buildGroupsGo (-100) [] [] [⟨0, 0, 0, 5000, "AXIS"⟩] =
      .ok ([(0, [⟨0, 0, 0, 5000⟩])], []) := by
    simp only [buildGroupsGo, hclass, if_neg (by norm_num : ¬((-100 : ℚ) = 0)),
      hkey, addToGroups]
  have haxis : verticalAxisOfGroup 2000 [⟨0, 0, 0, 5000⟩] =
      some ⟨"?", (0, 0), (0, 5000), true, 0⟩ := by
    unfold verticalAxisOfGroup listMinFrom listMaxFrom
    simp only [List.flatMap_cons, List.flatMap_nil, List.append_nil,
      List.foldl_cons, List.foldl_nil, List.map_cons, List.map_nil,
      List.sum_cons, List.sum_nil, List.length_cons, List.length_nil]
    rw [if_neg]
    · norm_num
    · rw [abs_sub_lt_iff]
      norm_num
  simp only [analyzeStructure, hgroups, List.filterMap_cons, List.filterMap_nil,
    haxis, horizontalAxisOfGroup, List.append_nil, List.map_cons, List.map_nil,
    labelAxis, List.foldl_nil]

/-! ## Degree dictionary lemmas (claims C1 and C4) -/

/-- Lookup in the degree dictionary; an absent key reads 0, matching
`defaultdict(int)`. -/
def lookupDeg : List (Pt × ℕ) → Pt → ℕ
  | [], _ => 0
  | (q, n) :: rest, p => if q = p then n else lookupDeg rest p

/-- Bumping a key increments exactly that key's count. -/
theorem lookupDeg_bump (q p : Pt) :
    ∀ (m : List (Pt × ℕ)),
      lookupDeg (bumpDegree m q) p = lookupDeg m p + (if q = p then 1 else 0) := by
  intro m
  induction m with
  | nil => by_cases h : q = p <;> simp [bumpDegree, lookupDeg, h]
  | cons kv rest ih =>
    obtain ⟨k, n⟩ := kv
    by_cases hk : k = q
    · subst hk
      simp only [bumpDegree, if_pos rfl, lookupDeg]
      by_cases hp : k = p <;> simp [hp]
    · simp only [bumpDegree, if_neg hk, lookupDeg]
      by_cases hp : k = p
      · have hqp : ¬(q = p) := fun h => hk (hp.trans h.symm)
        rw [if_pos hp, if_pos hp, if_neg hqp, Nat.add_zero]
      · rw [if_neg hp, if_neg hp, ih]

/-- Bumping adds the bumped key (at the end if new), leaving the key list
otherwise unchanged. -/
theorem keys_bump (q : Pt) :
    ∀ (m : List (Pt × ℕ)),
      (bumpDegree m q).map Prod.fst =
        if q ∈ m.map Prod.fst then m.map Prod.fst else m.map Prod.fst ++ [q] := by
  intro m
  induction m with
  | nil => simp [bumpDegree]
  | cons kv rest ih =>
    obtain ⟨k, n⟩ := kv
    by_cases hk : k = q
    · subst hk
      simp [bumpDegree]
    · simp only [bumpDegree, if_neg hk, List.map_cons, ih]
      have hqk : ¬(q = k) := fun h => hk h.symm
      by_cases hq : q ∈ rest.map Prod.fst
      · rw [if_pos hq, if_pos (List.mem_cons_of_mem _ hq)]
      · rw [if_neg hq, if_neg (by
          intro hmem
          rcases List.mem_cons.mp hmem with h | h
          · exact hqk h
          · exact hq h)]
        simp

/-- Bumping preserves distinctness of the keys. -/
theorem nodup_keys_bump (q : Pt) (m : List (Pt × ℕ))
    (h : (m.map Prod.fst).Nodup) : ((bumpDegree m q).map Prod.fst).Nodup := by
  rw [keys_bump]
  by_cases hq : q ∈ m.map Prod.fst
  · rwa [if_pos hq]
  · rw [if_neg hq, List.nodup_append]
    refine ⟨h, List.nodup_singleton _, ?_⟩
    intro x hx hx'
    rcases List.mem_singleton.mp hx' with rfl
    exact hq hx

/-- With distinct keys, the recorded count of a present key is its lookup. -/
theorem lookupDeg_of_mem :
    ∀ (m : List (Pt × ℕ)), (m.map Prod.fst).Nodup →
      ∀ (p : Pt) (n : ℕ), (p, n) ∈ m → lookupDeg m p = n := by
  intro m
  induction m with
  | nil => intro _ p n h; cases h
  | cons kv rest ih =>
    obtain ⟨k, c⟩ := kv
    intro hnd p n hm
    have hnd' : (rest.map Prod.fst).Nodup := (List.nodup_cons.mp hnd).2
    have hknot : k ∉ rest.map Prod.fst := (List.nodup_cons.mp hnd).1
    rcases List.mem_cons.mp hm with h | h
    · cases h
      simp [lookupDeg]
    · have hp : p ∈ rest.map Prod.fst :=
        List.mem_map.mpr ⟨(p, n), h, rfl⟩
      have hkp : ¬(k = p) := fun hkp => hknot (hkp ▸ hp)
      simp only [lookupDeg, if_neg hkp]
      exact ih hnd' p n h

/-- With distinct keys, "every dictionary value is 2" is "every key reads
2". -/
theorem all_deg_iff (m : List (Pt × ℕ)) (hnd : (m.map Prod.fst).Nodup) :
    ((m.all fun kv => decide (kv.2 = 2)) = true ↔
      ∀ p ∈ m.map Prod.fst, lookupDeg m p = 2) := by
  rw [List.all_eq_true]
  constructor
  · intro hall p hp
    rcases List.mem_map.mp hp with ⟨⟨p', n⟩, hmem, hfst⟩
    cases hfst
    rw [lookupDeg_of_mem m hnd p' n hmem]
    simpa using hall _ hmem
  · intro hkey kv hkv
    have hp : kv.1 ∈ m.map Prod.fst := List.mem_map.mpr ⟨kv, hkv, rfl⟩
    have := hkey kv.1 hp
    rw [lookupDeg_of_mem m hnd kv.1 kv.2 hkv] at this
    simpa using this

/-- The degree fold accumulates, per key, the endpoint contributions of the
scanned lines. -/
theorem lookupDeg_foldl (geoms : List LineGeom) (p : Pt) :
    ∀ (is : List ℕ) (m : List (Pt × ℕ)),
      lookupDeg (is.foldl (degStep geoms) m) p =
        lookupDeg m p + (is.map fun i => degContrib geoms i p).sum := by
  intro is
  induction is with
  | nil => intro m; simp
  | cons i is ih =>
    intro m
    rw [List.foldl_cons, ih, List.map_cons, List.sum_cons]
    rcases hgi : geoms[i]? with _ | g
    · simp [degStep, degContrib, hgi]
    · simp only [degStep, degContrib, hgi]
      rw [lookupDeg_bump, lookupDeg_bump]
      have h1 : (if g.p1 = p then (1 : ℕ) else 0) = (if g.p1 = p then 1 else 0) := rfl
      omega

/-- A key appears in the folded degree dictionary exactly when it was
already present or is an endpoint of one of the scanned lines. -/
theorem mem_keys_foldl (geoms : List LineGeom) (p : Pt) :
    ∀ (is : List ℕ) (m : List (Pt × ℕ)),
      (p ∈ (is.foldl (degStep geoms) m).map Prod.fst ↔
        p ∈ m.map Prod.fst ∨ ∃ i ∈ is, p ∈ endpointsAt geoms i) := by
  intro is
  induction is with
  | nil => intro m; simp
  | cons i is ih =>
    intro m
    rw [List.foldl_cons, ih]
    rcases hgi : geoms[i]? with _ | g
    · simp only [degStep, hgi]
      constructor
      · rintro (hm | ⟨j, hj, hpj⟩)
        · exact Or.inl hm
        · exact Or.inr ⟨j, List.mem_cons_of_mem _ hj, hpj⟩
      · rintro (hm | ⟨j, hj, hpj⟩)
        · exact Or.inl hm
        · rcases List.mem_cons.mp hj with rfl | hj'
          · rw [endpointsAt, hgi] at hpj
            cases hpj
          · exact Or.inr ⟨j, hj', hpj⟩
    · simp only [degStep, hgi]
      have hmem_bump : ∀ (mm : List (Pt × ℕ)) (q : Pt),
          p ∈ (bumpDegree mm q).map Prod.fst ↔ p ∈ mm.map Prod.fst ∨ p = q := by
        intro mm q
        rw [keys_bump]
        by_cases hq : q ∈ mm.map Prod.fst
        · rw [if_pos hq]
          constructor
          · exact Or.inl
          · rintro (h | rfl)
            · exact h
            · exact hq
        · rw [if_neg hq]
          simp [List.mem_append]
      have hkeys : ∀ (mm : List (Pt × ℕ)),
          p ∈ (bumpDegree (bumpDegree mm g.p1) g.p2).map Prod.fst ↔
            p ∈ mm.map Prod.fst ∨ p = g.p1 ∨ p = g.p2 := by
        intro mm
        rw [hmem_bump, hmem_bump]
        tauto
      rw [hkeys]
      have hend : p ∈ endpointsAt geoms i ↔ p = g.p1 ∨ p = g.p2 := by
        rw [endpointsAt, hgi]
        simp
      constructor
      · rintro ((hm | hp12) | ⟨j, hj, hpj⟩)
        · exact Or.inl hm
        · exact Or.inr ⟨i, List.mem_cons_self _ _, hend.mpr hp12⟩
        · exact Or.inr ⟨j, List.mem_cons_of_mem _ hj, hpj⟩
      · rintro (hm | ⟨j, hj, hpj⟩)
        · exact Or.inl (Or.inl hm)
        · rcases List.mem_cons.mp hj with rfl | hj'
          · exact Or.inl (Or.inr (hend.mp hpj))
          · exact Or.inr ⟨j, hj', hpj⟩

/-- The folded degree dictionary keeps its keys distinct. -/
theorem nodup_keys_foldl (geoms : List LineGeom) :
    ∀ (is : List ℕ) (m : List (Pt × ℕ)),
      (m.map Prod.fst).Nodup → ((is.foldl (degStep geoms) m).map Prod.fst).Nodup := by
  intro is
  induction is with
  | nil => intro m h; exact h
  | cons i is ih =>
    intro m h
    rw [List.foldl_cons]
    refine ih _ ?_
    rcases hgi : geoms[i]? with _ | g
    · simpa [degStep, hgi] using h
    · simp only [degStep, hgi]
      exact nodup_keys_bump _ _ (nodup_keys_bump _ _ h)

/-! ## Component invariants and the classification bridge (claims C1, C4) -/

/-- The folded degree dictionary of a component reads exactly the
extensional degree. -/
theorem lookupDeg_degreesOf (geoms : List LineGeom) (comp : Finset ℕ) (p : Pt) :
    lookupDeg (degreesOf geoms comp) p = degOf geoms comp p := by
  unfold degreesOf degOf
  rw [lookupDeg_foldl]
  simp only [lookupDeg, Nat.zero_add]
  have hperm : (comp.sort (· ≤ ·)).Perm comp.toList :=
    Finset.sort_perm_toList _ _
  rw [List.Perm.sum_eq (hperm.map _)]
  exact Finset.sum_to_list comp _

/-- The keys of a component's degree dictionary are exactly the component's
snapped endpoints. -/
theorem mem_keys_degreesOf (geoms : List LineGeom) (comp : Finset ℕ) (p : Pt) :
    p ∈ (degreesOf geoms comp).map Prod.fst ↔ p ∈ endpointsOf geoms comp := by
  unfold degreesOf endpointsOf
  rw [mem_keys_foldl]
  simp only [List.map_nil, List.not_mem_nil, false_or]
  rw [Finset.mem_biUnion]
  constructor
  · rintro ⟨i, hi, hp⟩
    exact ⟨i, (Finset.mem_sort _).mp hi, hp⟩
  · rintro ⟨i, hi, hp⟩
    exact ⟨i, (Finset.mem_sort _).mpr hi, hp⟩

/-- The degree dictionary of a component has distinct keys. -/
theorem nodup_keys_degreesOf (geoms : List LineGeom) (comp : Finset ℕ) :
    ((degreesOf geoms comp).map Prod.fst).Nodup :=
  nodup_keys_foldl geoms _ [] (by simp)

/-- The classification bridge: for a component whose node set is the set of
snapped endpoints of its lines — as the traversal guarantees — the source's
`is_closed` decision holds exactly when the extensional closed-space
predicate does. -/
theorem isClosedB_iff (minLines : ℕ) (geoms : List LineGeom)
    (c : Finset ℕ × Finset Pt) (hnodes : c.2 = endpointsOf geoms c.1) :
    isClosedB minLines geoms c = true ↔ ClosedPred minLines geoms c := by
  unfold isClosedB ClosedPred
  rw [decide_eq_true_eq]
  constructor
  · rintro ⟨h1, h2, h3⟩
    refine ⟨h1, h2, ?_⟩
    intro p hp
    have hp' : p ∈ endpointsOf geoms c.1 := by rwa [hnodes] at hp
    have hkey : p ∈ (degreesOf geoms c.1).map Prod.fst :=
      (mem_keys_degreesOf geoms c.1 p).mpr hp'
    have := (all_deg_iff _ (nodup_keys_degreesOf geoms c.1)).mp h3 p hkey
    rwa [lookupDeg_degreesOf] at this
  · rintro ⟨h1, h2, h3⟩
    refine ⟨h1, h2, ?_⟩
    rw [all_deg_iff _ (nodup_keys_degreesOf geoms c.1)]
    intro p hp
    rw [lookupDeg_degreesOf]
    refine h3 p ?_
    rw [hnodes]
    exact (mem_keys_degreesOf geoms c.1 p).mp hp

/-- The `is_closed` decision equals the decided extensional predicate. -/
theorem isClosedB_eq_decide (minLines : ℕ) (geoms : List LineGeom)
    (c : Finset ℕ × Finset Pt) (hnodes : c.2 = endpointsOf geoms c.1) :
    isClosedB minLines geoms c = decide (ClosedPred minLines geoms c) := by
  by_cases hp : ClosedPred minLines geoms c
  · rw [(isClosedB_iff minLines geoms c hnodes).mpr hp, decide_eq_true hp]
  · rcases hb : isClosedB minLines geoms c with _ | _
    · rw [decide_eq_false hp]
    · exact absurd ((isClosedB_iff minLines geoms c hnodes).mp hb) hp

/-- Along the traversal, the collected node set is always the set of
snapped endpoints of the collected lines. -/
theorem bfs_nodes (geoms : List LineGeom) :
    ∀ (queue : List ℕ) (comp : Finset ℕ) (nodes : Finset Pt),
      nodes = endpointsOf geoms comp →
      (bfs geoms queue comp nodes).2 =
        endpointsOf geoms (bfs geoms queue comp nodes).1 := by
  intro queue comp nodes
  induction queue, comp, nodes using bfs.induct geoms with
  | case1 comp nodes =>
    intro h
    simpa [bfs] using h
  | case2 comp nodes i rest hmem ih =>
    intro h
    rw [bfs, if_pos hmem]
    exact ih h
  | case3 comp nodes i rest hmem hnone ih =>
    intro h
    rw [bfs, if_neg hmem]
    split
    · exact ih h
    · rename_i g heq
      rw [hnone] at heq
      cases heq
  | case4 comp nodes i rest hmem g hsome ih =>
    intro h
    rw [bfs, if_neg hmem]
    split
    · rename_i heq
      rw [hsome] at heq
      cases heq
    · rename_i g' heq
      rw [hsome] at heq
      cases heq
      refine ih ?_
      rw [h]
      unfold endpointsOf
      rw [Finset.biUnion_insert]
      have : endpointsAt geoms i = {g.p1, g.p2} := by
        rw [endpointsAt, hsome]
      rw [this]
      ext x
      simp [or_assoc]

/-- Every component the traversal enumerates has as node set exactly the
snapped endpoints of its lines. -/
theorem componentsGo_nodes (geoms : List LineGeom) :
    ∀ (idxs : List ℕ) (visited : Finset ℕ) (c : Finset ℕ × Finset Pt),
      c ∈ componentsGo geoms visited idxs → c.2 = endpointsOf geoms c.1 := by
  intro idxs
  induction idxs with
  | nil =>
    intro visited c hc
    rw [componentsGo] at hc
    cases hc
  | cons idx rest ih =>
    intro visited c hc
    rw [componentsGo] at hc
    by_cases hv : idx ∈ visited
    · rw [if_pos hv] at hc
      exact ih _ c hc
    · rw [if_neg hv] at hc
      rcases List.mem_cons.mp hc with rfl | hc'
      · exact bfs_nodes geoms [idx] ∅ ∅ (by simp [endpointsOf])
      · exact ih _ c hc'

/-- Every enumerated component has well-formed nodes. -/
theorem componentsOf_nodes (geoms : List LineGeom)
    (c : Finset ℕ × Finset Pt) (hc : c ∈ componentsOf geoms) :
    c.2 = endpointsOf geoms c.1 :=
  componentsGo_nodes geoms _ _ c hc

/-- Unrolling the classification fold: the closed entries are the closed
components in order, the open entries the lines of the non-closed
components in order. -/
theorem classify_foldl (grid : AxisGrid) (geoms : List LineGeom) (minLines : ℕ) :
    ∀ (cs : List (Finset ℕ × Finset Pt)) (acc : SpacesResult),
      (∀ c ∈ cs, c.2 = endpointsOf geoms c.1) →
      cs.foldl (classifyStep grid geoms minLines) acc =
        ⟨acc.closed_spaces ++
          ((cs.filter fun c => decide (ClosedPred minLines geoms c)).map
            (mkClosed grid geoms)),
          acc.open_lines ++
            ((cs.filter fun c => !decide (ClosedPred minLines geoms c)).flatMap
              (mkOpens grid geoms))⟩ := by
  intro cs
  induction cs with
  | nil => intro acc _; simp
  | cons c cs ih =>
    intro acc hcs
    have hnodes : c.2 = endpointsOf geoms c.1 := hcs c (List.mem_cons_self _ _)
    rw [List.foldl_cons, ih _ (fun d hd => hcs d (List.mem_cons_of_mem _ hd))]
    unfold classifyStep
    rw [isClosedB_eq_decide minLines geoms c hnodes]
    by_cases hp : ClosedPred minLines geoms c
    · rw [if_pos (by rw [decide_eq_true hp])]
      simp [List.filter_cons, decide_eq_true hp, List.append_assoc]
    · rw [if_neg (by rw [decide_eq_false hp]; exact Bool.false_ne_true)]
      simp [List.filter_cons, decide_eq_false hp, List.append_assoc]

/-- The classification specification of the space detector: the closed
entries are exactly the components satisfying the extensional closed-space
predicate (in traversal order), and the open entries are exactly the lines
of the remaining components, reported individually. -/
def SpacesSpec (grid : AxisGrid) (geoms : List LineGeom) (minLines : ℕ) : Prop :=
  (detectFromGeoms grid geoms minLines).closed_spaces =
    ((componentsOf geoms).filter fun c =>
      decide (ClosedPred minLines geoms c)).map (mkClosed grid geoms) ∧
  (detectFromGeoms grid geoms minLines).open_lines =
    ((componentsOf geoms).filter fun c =>
      !decide (ClosedPred minLines geoms c)).flatMap (mkOpens grid geoms)

/-- C1: whenever the input lines parse (in particular whenever the
tolerance is positive), `_locate_line_spaces` returns the classification of
the traversal's components, and that classification reports a component as
a closed space exactly when it has at least `min_lines` lines, at least
`min_lines` distinct snapped nodes, and every node of degree exactly 2 —
otherwise each of its lines is reported individually as an open line. -/
theorem locateLineSpaces_classification (grid : AxisGrid) (lines : List RawLine)
    (minLines : ℕ) (tol : ℚ) (geoms : List LineGeom)
    (hparse : parseLines tol lines = .ok geoms) :
    locateLineSpaces grid lines minLines tol =
      .ok (detectFromGeoms grid geoms minLines) ∧
    SpacesSpec grid geoms minLines := by
  constructor
  · unfold locateLineSpaces
    rw [hparse]
    rcases geoms with _ | ⟨g, gs⟩ <;> rfl
  · have hspec := classify_foldl grid geoms minLines (componentsOf geoms) ⟨[], []⟩
      (fun c hc => componentsOf_nodes geoms c hc)
    unfold SpacesSpec detectFromGeoms
    rw [hspec]
    constructor
    · simp
    · simp

/-! ## Single-line inputs (claim C4) and the classification witness (C1) -/

/-- One snapped coordinate: `round(c * (1/tolerance)) / (1/tolerance)`. -/
def snapCoord (tol x : ℚ) : ℚ := (pythonRound (x * (1 / tol)) : ℚ) / (1 / tol)

/-- A snapped point. -/
def snapPt (tol x y : ℚ) : Pt := (snapCoord tol x, snapCoord tol y)

/-- With a positive tolerance, `_normalize_point` returns the snapped
point. -/
theorem normalizePoint_pos (x y tol : ℚ) (h : 0 < tol) :
    normalizePoint x y tol = .ok (snapPt tol x y) := by
  unfold normalizePoint snapPt snapCoord
  rw [if_neg (not_le.mpr h)]

/-- The parsed geometry of one raw line. -/
def geomOf (tol : ℚ) (l : RawLine) (i : ℕ) : LineGeom :=
  ⟨snapPt tol l.start_x l.start_y, snapPt tol l.end_x l.end_y,
    ((l.start_x + l.end_x) / 2, (l.start_y + l.end_y) / 2),
    (l.start_x, l.start_y), (l.end_x, l.end_y), l.layer, i⟩

/-- Parsing a one-line input with positive tolerance. -/
theorem parseLines_single (tol : ℚ) (h : 0 < tol) (l : RawLine) :
    parseLines tol [l] = .ok [geomOf tol l 0] := by
  unfold parseLines parseGo
  rw [normalizePoint_pos _ _ _ h, normalizePoint_pos _ _ _ h]
  rfl

/-- Adjacency lookup in a one-line graph. -/
theorem neighborsAt_single (g : LineGeom) (p : Pt) (h : g.p1 = p ∨ g.p2 = p) :
    neighborsAt [g] p = [0] := by
  unfold neighborsAt
  rw [show List.range ([g] : List LineGeom).length = [0] from by
    simp [List.range_succ]]
  rw [List.filter_cons]
  rw [show (match ([g] : List LineGeom)[0]? with
      | some g' => decide (g'.p1 = p ∨ g'.p2 = p)
      | none => false) = true from decide_eq_true h]
  rfl

/-- The traversal of a one-line graph collects that line and its two
nodes. -/
theorem bfs_single (g : LineGeom) :
    bfs [g] [0] ∅ ∅ = ({0}, {g.p1, g.p2}) := by
  rw [bfs, if_neg (Finset.not_mem_empty 0)]
  split
  · rename_i heq
    simp at heq
  · rename_i g' heq
    have hg : g' = g := by
      rw [show ([g] : List LineGeom)[0]? = some g from rfl] at heq
      exact ((Option.some.injEq _ _).mp heq).symm
    subst g'
    rw [neighborsAt_single g g.p1 (Or.inl rfl),
      neighborsAt_single g g.p2 (Or.inr rfl)]
    have hfilter : (([0] ++ [0]).filter fun j =>
        j ∉ insert 0 (∅ : Finset ℕ)) = ([] : List ℕ) := by
      simp
    rw [hfilter]
    rw [show ([] : List ℕ) ++ ([] : List ℕ) = ([] : List ℕ) from rfl, bfs]
    simp

/-- The component enumeration of a one-line graph. -/
theorem componentsOf_single (g : LineGeom) :
    componentsOf [g] = [({0}, {g.p1, g.p2})] := by
  unfold componentsOf
  rw [show List.range ([g] : List LineGeom).length = [0] from by
    simp [List.range_succ]]
  rw [componentsGo, if_neg (Finset.not_mem_empty 0), bfs_single, componentsGo]

/-- The nodes of the one-line component are its snapped endpoints. -/
theorem single_component_nodes (g : LineGeom) :
    (({0}, ({g.p1, g.p2} : Finset Pt)) : Finset ℕ × Finset Pt).2 =
      endpointsOf [g] {0} := by
  unfold endpointsOf
  rw [Finset.singleton_biUnion]
  rw [show endpointsAt [g] 0 = {g.p1, g.p2} from rfl]

/-- C4, amended: a single isolated line whose two snapped endpoints are
distinct is always reported as one open line — both its endpoints have
degree 1, never 2 — and never as a closed space, for every `min_lines ≥ 1`
(indeed for every `min_lines`). -/
theorem single_line_open (grid : AxisGrid) (l : RawLine) (minLines : ℕ)
    (tol : ℚ) (hpos : 0 < tol) (hmin1 : 1 ≤ minLines)
    (hdist : snapPt tol l.start_x l.start_y ≠ snapPt tol l.end_x l.end_y) :
    locateLineSpaces grid [l] minLines tol =
      .ok ⟨[], [⟨0, l.layer, (l.start_x + l.end_x) / 2, (l.start_y + l.end_y) / 2,
        locatePoint grid ((l.start_x + l.end_x) / 2) ((l.start_y + l.end_y) / 2)⟩]⟩ ∧
    degOf [geomOf tol l 0] {0} (snapPt tol l.start_x l.start_y) = 1 ∧
    degOf [geomOf tol l 0] {0} (snapPt tol l.end_x l.end_y) = 1 := by
  have hparse := parseLines_single tol hpos l
  have hp21 : (geomOf tol l 0).p2 ≠ (geomOf tol l 0).p1 := fun h => hdist h.symm
  have hp12 : (geomOf tol l 0).p1 ≠ (geomOf tol l 0).p2 := hdist
  have hdeg1 : degOf [geomOf tol l 0] {0} (geomOf tol l 0).p1 = 1 := by
    unfold degOf
    rw [Finset.sum_singleton]
    show ((if (geomOf tol l 0).p1 = (geomOf tol l 0).p1 then 1 else 0) +
      (if (geomOf tol l 0).p2 = (geomOf tol l 0).p1 then 1 else 0) : ℕ) = 1
    rw [if_pos rfl, if_neg hp21]
  have hdeg2 : degOf [geomOf tol l 0] {0} (geomOf tol l 0).p2 = 1 := by
    unfold degOf
    rw [Finset.sum_singleton]
    show ((if (geomOf tol l 0).p1 = (geomOf tol l 0).p2 then 1 else 0) +
      (if (geomOf tol l 0).p2 = (geomOf tol l 0).p2 then 1 else 0) : ℕ) = 1
    rw [if_pos rfl, if_neg hp12]
  have hnc : ¬ClosedPred minLines [geomOf tol l 0]
      ({0}, {(geomOf tol l 0).p1, (geomOf tol l 0).p2}) := by
    rintro ⟨_, _, hdeg⟩
    have h1 := hdeg (geomOf tol l 0).p1 (by simp)
    rw [hdeg1] at h1
    exact absurd h1 (by norm_num)
  have hopens : mkOpens grid [geomOf tol l 0]
      ({0}, {(geomOf tol l 0).p1, (geomOf tol l 0).p2}) =
      [⟨0, l.layer, (l.start_x + l.end_x) / 2, (l.start_y + l.end_y) / 2,
        locatePoint grid ((l.start_x + l.end_x) / 2) ((l.start_y + l.end_y) / 2)⟩] := by
    unfold mkOpens
    rw [Finset.sort_singleton]
    rfl
  have hdetect : detectFromGeoms grid [geomOf tol l 0] minLines =
      ⟨[], mkOpens grid [geomOf tol l 0]
        ({0}, {(geomOf tol l 0).p1, (geomOf tol l 0).p2})⟩ := by
    unfold detectFromGeoms
    rw [componentsOf_single, List.foldl_cons, List.foldl_nil]
    unfold classifyStep
    rw [isClosedB_eq_decide minLines [geomOf tol l 0] _
      (single_component_nodes (geomOf tol l 0)), decide_eq_false hnc,
      if_neg Bool.false_ne_true]
    rfl
  refine ⟨?_, hdeg1, hdeg2⟩
  unfold locateLineSpaces
  rw [hparse]
  show Except.ok (detectFromGeoms grid [geomOf tol l 0] minLines) = _
  rw [hdetect, hopens]

/-- C4, counterexample.  The claim says a single isolated line is always
reported open for every `min_lines ≥ 1`; but a degenerate line whose two
endpoints snap to the same node gives that node degree 2, and with
`min_lines = 1` the one-line component passes all three closed-space tests,
so it is reported as a closed space and not as an open line. -/
theorem single_degenerate_line_closed_cex :
    (1 : ℕ) ≤ 1 ∧
      (locateLineSpaces (AxisGrid.build ⟨[], []⟩) [⟨0, 0, 0, 0, "L"⟩] 1 1).map
        (fun r => (r.closed_spaces.length, r.open_lines.length)) =
        .ok (1, 0) := by
  refine ⟨le_refl 1, ?_⟩
  have hparse := parseLines_single 1 (by norm_num) ⟨0, 0, 0, 0, "L"⟩
  have hpp : (geomOf 1 ⟨0, 0, 0, 0, "L"⟩ 0).p2 = (geomOf 1 ⟨0, 0, 0, 0, "L"⟩ 0).p1 := rfl
  have hclosed : ClosedPred 1 [geomOf 1 ⟨0, 0, 0, 0, "L"⟩ 0]
      ({0}, {(geomOf 1 ⟨0, 0, 0, 0, "L"⟩ 0).p1, (geomOf 1 ⟨0, 0, 0, 0, "L"⟩ 0).p2}) := by
    refine ⟨by simp, ?_, ?_⟩
    · have hmem : (geomOf 1 ⟨0, 0, 0, 0, "L"⟩ 0).p1 ∈
          ({(geomOf 1 ⟨0, 0, 0, 0, "L"⟩ 0).p1,
            (geomOf 1 ⟨0, 0, 0, 0, "L"⟩ 0).p2} : Finset Pt) := by simp
      exact Finset.card_pos.mpr ⟨_, hmem⟩
    · intro p hp
      have hp1 : p = (geomOf 1 ⟨0, 0, 0, 0, "L"⟩ 0).p1 := by
        rcases Finset.mem_insert.mp hp with h | h
        · exact h
        · rw [Finset.mem_singleton] at h
          rw [h, hpp]
      subst hp1
      unfold degOf
      rw [Finset.sum_singleton]
      show ((if (geomOf 1 ⟨0, 0, 0, 0, "L"⟩ 0).p1 = (geomOf 1 ⟨0, 0, 0, 0, "L"⟩ 0).p1
          then 1 else 0) +
        (if (geomOf 1 ⟨0, 0, 0, 0, "L"⟩ 0).p2 = (geomOf 1 ⟨0, 0, 0, 0, "L"⟩ 0).p1
          then 1 else 0) : ℕ) = 2
      rw [if_pos rfl, if_pos hpp]
  have hdetect : detectFromGeoms (AxisGrid.build ⟨[], []⟩)
      [geomOf 1 ⟨0, 0, 0, 0, "L"⟩ 0] 1 =
      ⟨[mkClosed (AxisGrid.build ⟨[], []⟩) [geomOf 1 ⟨0, 0, 0, 0, "L"⟩ 0]
        ({0}, {(geomOf 1 ⟨0, 0, 0, 0, "L"⟩ 0).p1,
          (geomOf 1 ⟨0, 0, 0, 0, "L"⟩ 0).p2})], []⟩ := by
    unfold detectFromGeoms
    rw [componentsOf_single, List.foldl_cons, List.foldl_nil]
    unfold classifyStep
    rw [isClosedB_eq_decide 1 _ _ (single_component_nodes _),
      decide_eq_true hclosed, if_pos rfl]
    rfl
  unfold locateLineSpaces
  rw [hparse]
  show (Except.ok (detectFromGeoms (AxisGrid.build ⟨[], []⟩)
    [geomOf 1 ⟨0, 0, 0, 0, "L"⟩ 0] 1)).map _ = _
  rw [hdetect]
  rfl

/-- C1, witness: the classification theorem applied to a one-line input
with tolerance 1. -/
theorem locateLineSpaces_classification_witness :
    parseLines 1 [⟨0, 0, 10, 0, "W"⟩] = .ok [geomOf 1 ⟨0, 0, 10, 0, "W"⟩ 0] ∧
    (locateLineSpaces (AxisGrid.build ⟨[], []⟩) [⟨0, 0, 10, 0, "W"⟩] 4 1 =
        .ok (detectFromGeoms (AxisGrid.build ⟨[], []⟩)
          [geomOf 1 ⟨0, 0, 10, 0, "W"⟩ 0] 4) ∧
      SpacesSpec (AxisGrid.build ⟨[], []⟩) [geomOf 1 ⟨0, 0, 10, 0, "W"⟩ 0] 4) := by
  have hparse := parseLines_single 1 (by norm_num) ⟨0, 0, 10, 0, "W"⟩
  exact ⟨hparse, locateLineSpaces_classification _ _ _ _ _ hparse⟩

/-- Snapping with tolerance 1 is the identity on integers. -/
theorem snapCoord_one_intCast (n : ℤ) : snapCoord 1 (n : ℚ) = n := by
  unfold snapCoord
  rw [show (1 : ℚ) / 1 = 1 from by norm_num, mul_one, pythonRound_intCast, div_one]

/-- C4, witness: the single-line theorem applied to a horizontal line from
the origin to (10, 0) with tolerance 1 and `min_lines = 4`. -/
theorem single_line_open_witness :
    locateLineSpaces (AxisGrid.build ⟨[], []⟩) [⟨0, 0, 10, 0, "W"⟩] 4 1 =
      .ok ⟨[], [⟨0, "W", ((0 : ℚ) + 10) / 2, ((0 : ℚ) + 0) / 2,
        locatePoint (AxisGrid.build ⟨[], []⟩) (((0 : ℚ) + 10) / 2)
          (((0 : ℚ) + 0) / 2)⟩]⟩ ∧
    degOf [geomOf 1 ⟨0, 0, 10, 0, "W"⟩ 0] {0} (snapPt 1 0 0) = 1 ∧
    degOf [geomOf 1 ⟨0, 0, 10, 0, "W"⟩ 0] {0} (snapPt 1 10 0) = 1 :=
  single_line_open (AxisGrid.build ⟨[], []⟩) ⟨0, 0, 10, 0, "W"⟩ 4 1
    (by norm_num) (by norm_num)
    (by
      have h0 : snapCoord 1 (0 : ℚ) = 0 := by
        simpa using snapCoord_one_intCast 0
      have h10 : snapCoord 1 (10 : ℚ) = 10 := by
        have h := snapCoord_one_intCast 10
        simpa using h
      show snapPt 1 0 0 ≠ snapPt 1 10 0
      unfold snapPt
      rw [h0, h10]
      intro hcontra
      have := congrArg Prod.fst hcontra
      norm_num at this)
